import Mathlib

/-!
# The `star` archiver (src/star.c): a shallow embedding

The container file is modelled byte by byte, because the program addresses
block `i` at the absolute byte offset `i * sizeof(struct Block)`, so that the
bytes of block 0 are the bytes of the header and of the file table, and because
an `lseek` to a negative offset (block index -1) fails and leaves the file
offset where it was.

Conventions of the embedding.
* Target ABI: LP64 (`sizeof(int) = 4`, `sizeof(size_t) = 8`), little endian;
  `struct StarHeader` is 8 bytes, `struct FileEntry` 272, `struct Block` 262144.
* A C `int` is an `Int`; a value is cut to 32 bits where the C code converts a
  wider value to `int` (`wrap32`) and when it is stored to the container
  (`le32`). `++`, `--` and `+ 1` on an `int` are computed in the integers
  (their overflow is undefined in C).
* `size_t` is a `Nat`, reduced modulo `2^64` where the code does arithmetic on it.
* An uninitialised local (`struct Block block;`) is a parameter of the function.
* `while (1)` loops and the loop of `update_file` consume fuel and return
  `none` when it runs out; the other loops are bounded by their own counters.
* `open`, `stat` and `mkstemp` can fail (the host file is absent or unreadable,
  a flag says whether a file can be created). `read` fails on a source that is
  a directory, where it returns -1 at every call; otherwise `read`, `write`
  and `close` on an open descriptor do not fail. `printf` output is not
  modelled.
-/

namespace StarArchive

/-! ## Layout -/

/-- The macro `BLOCK_SIZE`, `(256 * 1024)`. -/
def BLOCK_SIZE : Nat := 256 * 1024

/-- The macro `MAX_FILES`, 250. -/
def MAX_FILES : Nat := 250

/-- The macro `MAX_PATH`, 256. -/
def MAX_PATH : Nat := 256

/-- Value of `sizeof(int)`. -/
def SIZEOF_INT : Nat := 4

/-- Value of `sizeof(struct StarHeader)`: two ints. -/
def SIZEOF_HEADER : Nat := 8

/-- Value of `sizeof(struct FileEntry)`: 256 + 8 + 4 + 4. -/
def SIZEOF_ENTRY : Nat := 272

/-- Value of `sizeof(struct Block)`: 4 + (BLOCK_SIZE - 4). -/
def SIZEOF_BLOCK : Nat := 262144

/-- Value of `sizeof(block.data)`, that is `BLOCK_SIZE - sizeof(int)`. -/
def DATA_SIZE : Nat := 262140

/-- Conversion of a wider integer to `int`. -/
def wrap32 (x : Int) : Int := (x + 2147483648) % 4294967296 - 2147483648

/-- Byte `i` (0..3) of the little-endian image of an `int`. -/
def le32 (x : Int) (i : Nat) : Nat := ((x % 4294967296).toNat / 256 ^ i) % 256

/-- Byte `i` (0..7) of the little-endian image of a `size_t`. -/
def le64 (x : Nat) (i : Nat) : Nat := ((x % 18446744073709551616) / 256 ^ i) % 256

/-- The `int` stored in the four bytes of `buf` from offset `o`. -/
def de32 (buf : Nat → Nat) (o : Nat) : Int :=
  let u := buf o % 256 + 256 * (buf (o + 1) % 256) + 65536 * (buf (o + 2) % 256)
    + 16777216 * (buf (o + 3) % 256)
  if u < 2147483648 then (u : Int) else (u : Int) - 4294967296

/-- The `size_t` stored in the eight bytes of `buf` from offset `o`. -/
def de64 (buf : Nat → Nat) (o : Nat) : Nat :=
  ((List.range 8).map (fun i => (buf (o + i) % 256) * 256 ^ i)).sum

/-! ## In-memory structures -/

/-- The `struct StarHeader`. -/
structure StarHeader where
  num_files : Int
  first_free_block : Int
deriving DecidableEq, Repr

/-- The `struct FileEntry`; `filename` is the 256-byte array. -/
structure FileEntry where
  filename : List Nat
  size : Nat
  first_block : Int
  is_used : Int
deriving DecidableEq, Repr

/-- The `struct Block`; `data i` is `data[i]` for `i < DATA_SIZE`. -/
structure Block where
  next_block : Int
  data : Nat → Nat

/-- A file together with the offset of the descriptor open on it. Bytes at and
after `len` do not exist. -/
structure OpenFile where
  len : Nat
  byte : Nat → Nat
  pos : Nat

/-- The `struct StarFile`; `fd` stands for the container the descriptor is open on. -/
structure StarFile where
  header : StarHeader
  file_table : List FileEntry
  fd : OpenFile
  verbose : Int

/-- What a path of the host file system denotes when a source is opened. -/
inductive HostFile where
  | absent : HostFile
  | unreadable : Nat → HostFile
  | readable : OpenFile → HostFile
  | directory : Nat → HostFile

/-- The call `stat(filename, &st)`: the size, or `none` when `stat` returns -1. -/
def HostFile.stat : HostFile → Option Nat
  | .absent => none
  | .unreadable n => some n
  | .readable f => some f.len
  | .directory n => some n

/-- The call `open(filename, O_RDONLY)`: the file at offset 0, or `none` on -1.
A directory opens; as no `read` on it delivers a byte, it stands as a file of
length 0, whose reads leave the buffer as it is. -/
def HostFile.openRead : HostFile → Option OpenFile
  | .absent => none
  | .unreadable _ => none
  | .readable f => some { f with pos := 0 }
  | .directory _ => some { len := 0, byte := fun _ => 0, pos := 0 }

/-- Whether `read` on the opened source returns -1: it does on a directory. -/
def HostFile.readFails : HostFile → Bool
  | .directory _ => true
  | _ => false

/-! ## System calls on an open file -/

namespace OpenFile

/-- The call `lseek(fd, off, SEEK_SET)`: fails, leaving the offset, when `off < 0`. -/
def lseek (f : OpenFile) (off : Int) : OpenFile :=
  if off < 0 then f else { f with pos := off.toNat }

/-- The call `lseek(fd, 0, SEEK_END)`; the value returned is the new offset `len`. -/
def lseekEnd (f : OpenFile) : OpenFile := { f with pos := f.len }

/-- The call `write(fd, buf, n)` at the current offset; a gap left before the offset
reads as zero bytes. -/
def write (f : OpenFile) (n : Nat) (buf : Nat → Nat) : OpenFile :=
  if n = 0 then f else
  { len := max f.len (f.pos + n)
    byte := fun o =>
      if f.pos ≤ o ∧ o < f.pos + n then buf (o - f.pos)
      else if o < f.len then f.byte o else 0
    pos := f.pos + n }

/-- Number of bytes a `read(fd, buf, n)` at the current offset returns. -/
def avail (f : OpenFile) (n : Nat) : Nat := min n (f.len - f.pos)

/-- The buffer after `read(fd, buf, n)`: the bytes read, then the old ones. -/
def readBuf (f : OpenFile) (n : Nat) (old : Nat → Nat) : Nat → Nat :=
  fun i => if i < f.avail n then f.byte (f.pos + i) else old i

/-- The descriptor after `read(fd, buf, n)`. -/
def advance (f : OpenFile) (n : Nat) : OpenFile := { f with pos := f.pos + f.avail n }

/-- A file just created by `open(.., O_CREAT | O_TRUNC)` or `mkstemp`. -/
def empty : OpenFile := { len := 0, byte := fun _ => 0, pos := 0 }

end OpenFile

/-! ## Byte images of the structures -/

/-- Bytes of a `struct StarHeader`. -/
def headerBytes (h : StarHeader) : Nat → Nat :=
  fun i => if i < 4 then le32 h.num_files i else le32 h.first_free_block (i - 4)

/-- The `struct StarHeader` held by eight bytes. -/
def decodeHeader (buf : Nat → Nat) : StarHeader :=
  { num_files := de32 buf 0, first_free_block := de32 buf 4 }

/-- Bytes of a `struct Block`. -/
def blockBytes (b : Block) : Nat → Nat :=
  fun i => if i < 4 then le32 b.next_block i else b.data (i - 4)

/-- The `struct Block` held by a buffer of `SIZEOF_BLOCK` bytes. -/
def decodeBlock (buf : Nat → Nat) : Block :=
  { next_block := de32 buf 0, data := fun i => buf (i + 4) }

/-- The entry `memset` to zero. -/
def zeroEntry : FileEntry :=
  { filename := List.replicate MAX_PATH 0, size := 0, first_block := 0, is_used := 0 }

/-- Bytes of a `struct FileEntry`. -/
def entryBytes (e : FileEntry) : Nat → Nat :=
  fun j =>
    if j < 256 then e.filename.getD j 0
    else if j < 264 then le64 e.size (j - 256)
    else if j < 268 then le32 e.first_block (j - 264)
    else le32 e.is_used (j - 268)

/-- The `struct FileEntry` held by the 272 bytes of `buf` from offset `o`. -/
def decodeEntry (buf : Nat → Nat) (o : Nat) : FileEntry :=
  { filename := (List.range MAX_PATH).map (fun j => buf (o + j))
    size := de64 buf (o + 256)
    first_block := de32 buf (o + 264)
    is_used := de32 buf (o + 268) }

/-- Bytes of `file_table[MAX_FILES]`. -/
def tableBytes (t : List FileEntry) : Nat → Nat :=
  fun o => entryBytes (t.getD (o / SIZEOF_ENTRY) zeroEntry) (o % SIZEOF_ENTRY)

/-- The table held by a buffer of `MAX_FILES * SIZEOF_ENTRY` bytes. -/
def decodeTable (buf : Nat → Nat) : List FileEntry :=
  (List.range MAX_FILES).map (fun i => decodeEntry buf (i * SIZEOF_ENTRY))

/-- The call `read(fd, &block, sizeof(struct Block))` into the local `block`. -/
def readBlock (f : OpenFile) (block : Block) : Block × OpenFile :=
  (decodeBlock (f.readBuf SIZEOF_BLOCK (blockBytes block)), f.advance SIZEOF_BLOCK)

/-- The call `lseek(fd, b * sizeof(struct Block), SEEK_SET)`. -/
def seekBlock (f : OpenFile) (b : Int) : OpenFile := f.lseek (b * SIZEOF_BLOCK)

/-- An `lseek` to block `b`, then `write(fd, &block, sizeof(struct Block))`. -/
def writeBlockAt (f : OpenFile) (b : Int) (block : Block) : OpenFile :=
  (seekBlock f b).write SIZEOF_BLOCK (blockBytes block)

/-- The two writes that end every mutating operation: the header at offset 0
and the table at offset `sizeof(struct StarHeader)`. -/
def persist (f : OpenFile) (h : StarHeader) (t : List FileEntry) : OpenFile :=
  ((((f.lseek 0).write SIZEOF_HEADER (headerBytes h)).lseek SIZEOF_HEADER).write
    (SIZEOF_ENTRY * MAX_FILES) (tableBytes t))

/-! ## Strings -/

/-- The C string at the start of a byte array: the bytes before the first NUL. -/
def cstr (s : List Nat) : List Nat := s.takeWhile (fun c => c != 0)

/-- The test `strcmp(a, b) == 0`. -/
def streq (a b : List Nat) : Bool := cstr a == cstr b

/-- The call `strncpy(dst, src, n)`: the string, NUL-padded to `n` bytes; the bytes of
`dst` from `n` on are kept. -/
def strncpy (dst src : List Nat) (n : Nat) : List Nat :=
  ((cstr src).take n ++ List.replicate (n - (cstr src).length) 0) ++ dst.drop n

/-- The entry `file_table[i]`. -/
def entryAt (t : List FileEntry) (i : Nat) : FileEntry := t.getD i zeroEntry

/-- The search loop of `add_file`: the first `i < MAX_FILES` with
`!file_table[i].is_used`. -/
def findUnused (t : List FileEntry) : Option Nat :=
  (List.range MAX_FILES).find? (fun i => (entryAt t i).is_used == 0)

/-- The search loop shared by the other operations: the first `i < MAX_FILES`
with `file_table[i].is_used && strcmp(file_table[i].filename, filename) == 0`. -/
def findFile (t : List FileEntry) (filename : List Nat) : Option Nat :=
  (List.range MAX_FILES).find?
    (fun i => (entryAt t i).is_used != 0 && streq (entryAt t i).filename filename)

/-- The test `memcmp(a, b, n) == 0` on the bytes from index `i`. -/
def bufEq (a b : Nat → Nat) : Nat → Nat → Bool
  | 0, _ => true
  | n + 1, i => a i == b i && bufEq a b n (i + 1)

/-! ## `init_star_file` and the start of `main` -/

/-- Lines 42-60. `container` is the file the path denotes (length 0 when `open`
creates it); `open` succeeds, without `O_TRUNC`, at offset 0. -/
def init_star_file (container : OpenFile) (verbose : Int) : StarFile :=
  let header : StarHeader := { num_files := 0, first_free_block := -1 }
  let fd := ({ container with pos := 0 } : OpenFile).write SIZEOF_HEADER (headerBytes header)
  let table := List.replicate MAX_FILES zeroEntry
  { header := header
    file_table := table
    fd := fd.write (SIZEOF_ENTRY * MAX_FILES) (tableBytes table)
    verbose := verbose }

/-- Lines 630-632 of `main`: `lseek` to 0 and read the header and the table
into the working copies. -/
def reload (star : StarFile) : StarFile :=
  let fd := star.fd.lseek 0
  let hb := fd.readBuf SIZEOF_HEADER (headerBytes star.header)
  let fd := fd.advance SIZEOF_HEADER
  let tb := fd.readBuf (SIZEOF_ENTRY * MAX_FILES) (tableBytes star.file_table)
  { star with
    header := decodeHeader hb
    file_table := decodeTable tb
    fd := fd.advance (SIZEOF_ENTRY * MAX_FILES) }

/-- Lines 625-633 of `main`: the state handed to the dispatch on `operation`. -/
def main_startup (container : OpenFile) (verbose : Int) (operation : Char) : StarFile :=
  let star := init_star_file container verbose
  if operation != 'c' then reload star else star

/-! ## `add_file` -/

/-- The copy loop of `add_file` (lines 103-124) with `k` iterations left;
`k = 0` in the body is `i == num_blocks - 1`. -/
def add_loop : Nat → Int → OpenFile → OpenFile → Block → OpenFile
  | 0, _, fd, _, _ => fd
  | k + 1, current_block, fd, src, block =>
    let next : Int := if k = 0 then -1 else current_block + 1
    let blk : Block := { next_block := next, data := src.readBuf DATA_SIZE block.data }
    add_loop k next (writeBlockAt fd current_block blk) (src.advance DATA_SIZE) blk

/-- Lines 62-142. `host` is what `filename` denotes on the host, `block` the
uninitialised local. When `read` fails, it does so in the first iteration of
the copy loop, before any seek or write, and `add_file` returns -1 (line 109)
with the table entry already assigned. -/
def add_file (star : StarFile) (filename : List Nat) (host : HostFile) (block : Block) :
    Int × StarFile :=
  match host.stat with
  | none => (-1, star)
  | some st_size =>
    match findUnused star.file_table with
    | none => (-1, star)
    | some file_index =>
      match host.openRead with
      | none => (-1, star)
      | some src =>
        let num_blocks := wrap32 (((st_size + BLOCK_SIZE - 1) / BLOCK_SIZE : Nat) : Int)
        let current_block := star.header.first_free_block
        let e : FileEntry :=
          { filename := strncpy (entryAt star.file_table file_index).filename filename
              (MAX_PATH - 1)
            size := st_size
            first_block := current_block
            is_used := 1 }
        let table := star.file_table.set file_index e
        if host.readFails && decide (0 < num_blocks.toNat) then
          (-1, { star with file_table := table })
        else
        let fd := add_loop num_blocks.toNat current_block star.fd src block
        let header : StarHeader := { star.header with num_files := star.header.num_files + 1 }
        (0, { star with header := header, file_table := table, fd := persist fd header table })

/-! ## `extract_file` -/

/-- The copy loop of `extract_file` (lines 172-184). Every iteration but the
last lowers `remaining` by `DATA_SIZE` and the last one brings it to 0, so a
fuel of `remaining / DATA_SIZE + 1` is never used up. Returns the container
and the destination. -/
def extract_loop : Nat → Int → Nat → OpenFile → OpenFile → Block → OpenFile × OpenFile
  | 0, _, _, fd, dst, _ => (fd, dst)
  | fuel + 1, current_block, remaining, fd, dst, block =>
    if current_block != -1 && decide (remaining > 0) then
      let r := readBlock (seekBlock fd current_block) block
      let to_write := if remaining > DATA_SIZE then DATA_SIZE else remaining
      extract_loop fuel r.1.next_block (remaining - to_write) r.2
        (dst.write to_write r.1.data) r.1
    else (fd, dst)

/-- Lines 144-193. `dst_ok` says whether the destination can be created; the
third component is the destination file written. -/
def extract_file (star : StarFile) (filename : List Nat) (dst_ok : Bool) (block : Block) :
    Int × StarFile × Option OpenFile :=
  match findFile star.file_table filename with
  | none => (-1, star, none)
  | some file_index =>
    if !dst_ok then (-1, star, none) else
    let e := entryAt star.file_table file_index
    let r := extract_loop (e.size / DATA_SIZE + 1) e.first_block e.size star.fd OpenFile.empty block
    (0, { star with fd := r.1 }, some r.2)

/-! ## `delete_file` -/

/-- The `while (1)` walk to the last block of a chain (lines 262-267, and
again 404-409): the index of the last block, the container, and `block` as
last read. -/
def walk_to_last : Nat → Int → OpenFile → Block → Option (Int × OpenFile × Block)
  | 0, _, _, _ => none
  | fuel + 1, last_block, fd, block =>
    let r := readBlock (seekBlock fd last_block) block
    if r.1.next_block == -1 then some (last_block, r.2, r.1)
    else walk_to_last fuel r.1.next_block r.2 r.1

/-- Lines 236-293. -/
def delete_file (fuel : Nat) (star : StarFile) (filename : List Nat) (block : Block) :
    Option (Int × StarFile) :=
  match findFile star.file_table filename with
  | none => some (-1, star)
  | some file_index =>
    let current_block := (entryAt star.file_table file_index).first_block
    let freed : Option (StarHeader × OpenFile) :=
      if current_block != -1 then
        (walk_to_last fuel current_block star.fd block).map fun w =>
          ({ star.header with first_free_block := current_block },
           writeBlockAt w.2.1 w.1 { w.2.2 with next_block := star.header.first_free_block })
      else some (star.header, star.fd)
    freed.map fun hf =>
      let table := star.file_table.set file_index
        { entryAt star.file_table file_index with is_used := 0 }
      let header : StarHeader := { hf.1 with num_files := hf.1.num_files - 1 }
      (0, { star with header := header, file_table := table, fd := persist hf.2 header table })

/-! ## `update_file` -/

/-- The comparison loop of `update_file` (lines 331-346): `needs_update` and
the container. -/
def compare_loop : Nat → Int → OpenFile → OpenFile → Block → Block → Option (Bool × OpenFile)
  | 0, _, _, _, _, _ => none
  | fuel + 1, current_block, fd, src, old_block, new_block =>
    if current_block == -1 then some (false, fd) else
    let r := readBlock (seekBlock fd current_block) old_block
    let data := src.readBuf DATA_SIZE new_block.data
    if !bufEq r.1.data data DATA_SIZE 0 then some (true, r.2)
    else compare_loop fuel r.1.next_block r.2 (src.advance DATA_SIZE) r.1
      { new_block with data := data }

/-- Lines 296-364. `old_block` and `new_block` are the uninitialised locals,
`del_block` and `add_block` those of the calls to `delete_file` and `add_file`. -/
def update_file (fuel : Nat) (star : StarFile) (filename : List Nat) (host : HostFile)
    (old_block new_block del_block add_block : Block) : Option (Int × StarFile) :=
  match host.stat with
  | none => some (-1, star)
  | some st_size =>
    match findFile star.file_table filename with
    | none => some (add_file star filename host add_block)
    | some file_index =>
      let replace := fun (s : StarFile) =>
        (delete_file fuel s filename del_block).map fun r => add_file r.2 filename host add_block
      if (entryAt star.file_table file_index).size == st_size % 18446744073709551616 then
        match host.openRead with
        | none => some (-1, star)
        | some src =>
          match compare_loop fuel (entryAt star.file_table file_index).first_block star.fd src
              old_block new_block with
          | none => none
          | some c => if c.1 then replace { star with fd := c.2 }
                      else some (0, { star with fd := c.2 })
      else replace star

/-! ## `append_to_file` -/

/-- The loop that adds blocks (lines 427-464) with `k` iterations left;
`first` is `i == 0`. Returns the header and the container. -/
def append_loop : Nat → Bool → Int → StarHeader → OpenFile → OpenFile → Block →
    StarHeader × OpenFile
  | 0, _, _, header, fd, _, _ => (header, fd)
  | k + 1, first, last_block, header, fd, src, block =>
    let free := header.first_free_block
    -- lines 429-438: a block of the free list, or the index just past the end
    let r := readBlock (seekBlock fd free) block
    let new_block : Int := if free == -1 then wrap32 ((fd.len / SIZEOF_BLOCK : Nat) : Int) else free
    let header1 : StarHeader :=
      if free == -1 then header else { header with first_free_block := r.1.next_block }
    let fd1 := if free == -1 then fd.lseekEnd else r.2
    -- lines 441-454: zeroed data, filled from the source, written with next = -1
    let blk : Block := { next_block := -1, data := src.readBuf DATA_SIZE (fun _ => 0) }
    let fd2 := writeBlockAt fd1 new_block blk
    -- lines 457-461: on the first iteration the same buffer goes to last_block
    let blk1 : Block := if first then { blk with next_block := new_block } else blk
    let fd3 := if first then writeBlockAt fd2 last_block blk1 else fd2
    append_loop k false new_block header1 fd3 (src.advance DATA_SIZE) blk1

/-- Lines 367-482. `host` is what `content_file` denotes on the host. When
`read` fails, the one at line 416 delivers nothing and the one at line 442, in
the first iteration of the loop, makes `append_to_file` return -1 (line 446)
after the new block has been chosen. -/
def append_to_file (fuel : Nat) (star : StarFile) (filename : List Nat) (host : HostFile)
    (block : Block) : Option (Int × StarFile) :=
  match findFile star.file_table filename with
  | none => some (-1, star)
  | some file_index =>
    match host.openRead with
    | none => some (-1, star)
    | some src =>
      match host.stat with
      | none => some (-1, star)
      | some st_size0 =>
        let e := entryAt star.file_table file_index
        let last_block_used := e.size % DATA_SIZE
        (walk_to_last fuel e.first_block star.fd block).map fun w =>
          let last_block := w.1
          let space_left := DATA_SIZE - last_block_used
          -- lines 412-421: fill the room left in the last block
          let bytes_read := if last_block_used > 0 then src.avail space_left else 0
          let fd1 :=
            if last_block_used > 0 then
              (w.2.1.lseek (last_block * SIZEOF_BLOCK + SIZEOF_INT + last_block_used)).write
                bytes_read (src.readBuf space_left (fun _ => 0))
            else w.2.1
          let src1 := if last_block_used > 0 then src.advance space_left else src
          let st_size := st_size0 - bytes_read
          let additional_blocks :=
            wrap32 (((st_size + BLOCK_SIZE - SIZEOF_INT - 1) / (BLOCK_SIZE - SIZEOF_INT) : Nat) : Int)
          if host.readFails && decide (0 < additional_blocks.toNat) then
            -- lines 429-447 of the first iteration, up to the failed read
            let free := star.header.first_free_block
            let r := readBlock (seekBlock fd1 free) w.2.2
            if free == -1 then (-1, { star with fd := fd1.lseekEnd })
            else (-1, { star with
                          header := { star.header with first_free_block := r.1.next_block }
                          fd := r.2 })
          else
          let l := append_loop additional_blocks.toNat true last_block star.header fd1 src1 w.2.2
          let table := star.file_table.set file_index
            { e with size := (e.size + st_size) % 18446744073709551616 }
          (0, { star with header := l.1, file_table := table, fd := persist l.2 l.1 table })

/-! ## `pack_file` -/

/-- The variables of the outer loop of `pack_file`. -/
structure PackState where
  file_table : List FileEntry
  next_block : Int
  fd : OpenFile
  temp : OpenFile
  block : Block

/-- The inner loop of `pack_file` (lines 514-536); as in `extract_loop`, a fuel
of `remaining / DATA_SIZE + 1` is never used up. The walk continues from
`block.next_block` as just overwritten (line 534). -/
def pack_chain : Nat → Int → Nat → Int → OpenFile → OpenFile → Block →
    Int × OpenFile × OpenFile × Block
  | 0, _, _, next_block, fd, temp, block => (next_block, fd, temp, block)
  | fuel + 1, current_block, remaining, next_block, fd, temp, block =>
    if current_block != -1 && decide (remaining > 0) then
      let r := readBlock (seekBlock fd current_block) block
      let current_size := if remaining > DATA_SIZE then DATA_SIZE else remaining
      let blk : Block :=
        { r.1 with next_block := if remaining > DATA_SIZE then next_block + 1 else -1 }
      pack_chain fuel blk.next_block (remaining - current_size) (next_block + 1) r.2
        (writeBlockAt temp next_block blk) blk
    else (next_block, fd, temp, block)

/-- One iteration of the outer loop of `pack_file` (lines 505-538). -/
def pack_step (s : PackState) (i : Nat) : PackState :=
  let e := entryAt s.file_table i
  if e.is_used != 0 then
    let c := pack_chain (e.size / DATA_SIZE + 1) e.first_block e.size s.next_block s.fd s.temp
      s.block
    { file_table := s.file_table.set i { e with first_block := s.next_block }
      next_block := c.1
      fd := c.2.1
      temp := c.2.2.1
      block := c.2.2.2 }
  else s

/-- Lines 485-556. `temp_ok` says whether `mkstemp` succeeds. The descriptor of
the result is open on the temporary file, which `rename` calls "temp.star";
the working header is left as it was. -/
def pack_file (star : StarFile) (temp_ok : Bool) (block : Block) : Int × StarFile :=
  if !temp_ok then (-1, star) else
  let new_header : StarHeader := { star.header with first_free_block := -1 }
  let temp0 := (OpenFile.empty.write SIZEOF_HEADER (headerBytes new_header)).write
    (SIZEOF_ENTRY * MAX_FILES) (tableBytes star.file_table)
  let s := (List.range MAX_FILES).foldl pack_step
    { file_table := star.file_table, next_block := 0, fd := star.fd.lseek 0,
      temp := temp0, block := block }
  (0, { star with
        file_table := s.file_table
        fd := (s.temp.lseek SIZEOF_HEADER).write (SIZEOF_ENTRY * MAX_FILES)
          (tableBytes s.file_table) })


/-! ## Observations on a container -/

/-- The header stored at offset 0 of a container. -/
def persistedHeader (f : OpenFile) : StarHeader := decodeHeader f.byte

/-- The file table stored after the header of a container. -/
def persistedTable (f : OpenFile) : List FileEntry :=
  decodeTable (fun o => f.byte (SIZEOF_HEADER + o))

/-- The `next_block` field of block `b` as stored in the container. -/
def nextOf (f : OpenFile) (b : Nat) : Int := de32 f.byte (b * SIZEOF_BLOCK)

/-- Chains: `IsChain f b bs` says that the chain that starts at index `b`
consists of the blocks `bs`, in this order, each stored in full in the
container, and that the last one holds the link -1 (`b = -1` for the empty
chain). -/
def IsChain (f : OpenFile) : Int → List Nat → Prop
  | b, [] => b = -1
  | b, x :: xs => b = (x : Int) ∧ (x + 1) * SIZEOF_BLOCK ≤ f.len ∧ IsChain f (nextOf f x) xs

instance IsChain.instDecidable (f : OpenFile) :
    ∀ (b : Int) (bs : List Nat), Decidable (IsChain f b bs)
  | b, [] => inferInstanceAs (Decidable (b = -1))
  | b, x :: xs =>
    have := IsChain.instDecidable f (nextOf f x) xs
    inferInstanceAs
      (Decidable (b = (x : Int) ∧ (x + 1) * SIZEOF_BLOCK ≤ f.len ∧ IsChain f (nextOf f x) xs))


/-- No used entry of the table bears the name: the search loops on
`is_used && strcmp(...) == 0` find nothing. -/
def Absent (t : List FileEntry) (name : List Nat) : Prop :=
  ∀ i, i < MAX_FILES → (entryAt t i).is_used ≠ 0 → streq (entryAt t i).filename name = false

instance Absent.instDecidable (t : List FileEntry) (name : List Nat) : Decidable (Absent t name) :=
  inferInstanceAs (Decidable (∀ i, i < MAX_FILES →
    (entryAt t i).is_used ≠ 0 → streq (entryAt t i).filename name = false))

/-- The payload of block `b` as stored in the container: its `DATA_SIZE` bytes
after the link. -/
def payload (f : OpenFile) (b : Nat) : List Nat :=
  (List.range DATA_SIZE).map fun i => f.byte (b * SIZEOF_BLOCK + 4 + i)

/-- The bytes of a file, in order. -/
def OpenFile.content (f : OpenFile) : List Nat := (List.range f.len).map f.byte

/-- The blocks that the copy loop of `add_file` builds from the source (lines
105-117), in order, when it has `k` iterations left and stands at index
`current_block`: each is the buffer as the `read` leaves it, with the link set
to the next index, or to -1 in the last one. The container plays no part. -/
def addBlocks : Nat → Int → OpenFile → Block → List Block
  | 0, _, _, _ => []
  | k + 1, current_block, src, block =>
    { next_block := if k = 0 then -1 else current_block + 1
      data := src.readBuf DATA_SIZE block.data } ::
      addBlocks k (current_block + 1) (src.advance DATA_SIZE)
        { next_block := if k = 0 then -1 else current_block + 1
          data := src.readBuf DATA_SIZE block.data }

/-- Writing the blocks of a list at the consecutive indices `h`, `h + 1`, ...,
each by an `lseek` to its index and a `write` of the whole block. -/
def writeRun (fd : OpenFile) : Int → List Block → OpenFile
  | _, [] => fd
  | h, b :: bs => writeRun (writeBlockAt fd h b) (h + 1) bs

/-- Number of the 250 table entries whose used flag is set. -/
def usedCount (t : List FileEntry) : Nat :=
  (List.range MAX_FILES).countP fun i => (entryAt t i).is_used != 0

/-- The file-count invariant: the header's file count is the number of used
entries. -/
def CountOk (star : StarFile) : Prop := star.header.num_files = (usedCount star.file_table : Int)

instance CountOk.instDecidable (star : StarFile) : Decidable (CountOk star) :=
  inferInstanceAs (Decidable (star.header.num_files = (usedCount star.file_table : Int)))

/-! ## Example states -/

/-- A block buffer of zeros, one possible content of an uninitialised local. -/
def zeroBlock : Block := { next_block := 0, data := fun _ => 0 }

/-- A host file holding the ten bytes "0123456789". -/
def digits : OpenFile := { len := 10, byte := fun i => 48 + i, pos := 0 }

/-- A host file of `n` bytes, all equal to `c`. -/
def constFile (n c : Nat) : OpenFile := { len := n, byte := fun _ => c, pos := 0 }

/-- A table whose slot 0 is used by a file `name` of the given size and first
block, the other 249 slots being unused. -/
def oneEntry (name : List Nat) (size : Nat) (first : Int) : List FileEntry :=
  { filename := strncpy zeroEntry.filename name (MAX_PATH - 1), size := size,
    first_block := first, is_used := 1 } :: List.replicate 249 zeroEntry

/-- The archive with working header `h` and table `t` on a container whose
blocks are those of `blocks` and whose header and table are `h` and `t`. -/
def mkState (h : StarHeader) (t : List FileEntry) (blocks : OpenFile) : StarFile :=
  { header := h, file_table := t, fd := persist blocks h t, verbose := 0 }

/-- File "y" of 300000 zero bytes in the chain 1, 2; no free block. -/
def exAppendSize : StarFile :=
  mkState ⟨1, -1⟩ (oneEntry [121] 300000 1)
    (writeBlockAt (writeBlockAt OpenFile.empty 1 ⟨2, fun _ => 0⟩) 2 ⟨-1, fun _ => 0⟩)

/-- File "y" of 262140 bytes, all 1, filling block 1; no free block. -/
def exAppendFull : StarFile :=
  mkState ⟨1, -1⟩ (oneEntry [121] 262140 1) (writeBlockAt OpenFile.empty 1 ⟨-1, fun _ => 1⟩)

/-- File "x" holding "0123456789" in block 1; block 2 is the free list. -/
def exPack : StarFile :=
  mkState ⟨1, 2⟩ (oneEntry [120] 10 1)
    (writeBlockAt (writeBlockAt OpenFile.empty 1 ⟨-1, digits.byte⟩) 2 ⟨-1, fun _ => 0⟩)

/-- File "x" of 300000 zero bytes in the chain 3, 1 of a container of four
blocks; no free block. -/
def exReuse : StarFile :=
  mkState ⟨1, -1⟩ (oneEntry [120] 300000 3)
    (writeBlockAt (writeBlockAt OpenFile.empty 1 ⟨-1, fun _ => 0⟩) 3 ⟨1, fun _ => 0⟩)

/-- File "x" of 262141 bytes, all 7, in the chain 1, 2; the bytes of block 2
after the first are 0. -/
def exUpdate : StarFile :=
  mkState ⟨1, -1⟩ (oneEntry [120] 262141 1)
    (writeBlockAt (writeBlockAt OpenFile.empty 1 ⟨2, fun _ => 7⟩) 2
      ⟨-1, fun i => if i = 0 then 7 else 0⟩)

/-- File "x" of 300000 zero bytes in the chain 0, 1: the link of block 0 is
the file count 1 of the header; no free block. -/
def exDeleteZero : StarFile :=
  mkState ⟨1, -1⟩ (oneEntry [120] 300000 0) (writeBlockAt OpenFile.empty 1 ⟨-1, fun _ => 0⟩)

/-- A table whose 250 slots are all used. -/
def fullTable : List FileEntry :=
  List.replicate MAX_FILES { zeroEntry with is_used := 1 }

/-- A host file holding the ten bytes "9876543210". -/
def digitsRev : OpenFile := { len := 10, byte := fun i => 57 - i, pos := 0 }

/-- The archive made by `init_star_file` on a new container followed by
`add_file` of "x" holding "0123456789". -/
def exFreshAdded : StarFile :=
  (add_file (init_star_file OpenFile.empty 0) [120] (.readable digits) zeroBlock).2

/-- The archive `exPack` after the deletion of "x": slot 0 keeps the name with
the used flag cleared, and the free list is 1, 2. -/
def exDeleted : StarFile :=
  mkState ⟨0, 1⟩
    ({ filename := strncpy zeroEntry.filename [120] (MAX_PATH - 1), size := 10,
       first_block := 1, is_used := 0 } :: List.replicate 249 zeroEntry)
    (writeBlockAt (writeBlockAt OpenFile.empty 1 ⟨2, digits.byte⟩) 2 ⟨-1, fun _ => 0⟩)

/-- File "x" of 300000 bytes in the chain 5, 2 of a container of six blocks;
every payload byte of block `b` is `b`, for `b` from 1 to 5; no free block. -/
def exRelay : StarFile :=
  mkState ⟨1, -1⟩ (oneEntry [120] 300000 5)
    (writeBlockAt (writeBlockAt (writeBlockAt (writeBlockAt (writeBlockAt OpenFile.empty
      1 ⟨-1, fun _ => 1⟩) 2 ⟨-1, fun _ => 2⟩) 3 ⟨-1, fun _ => 3⟩) 4 ⟨-1, fun _ => 4⟩)
      5 ⟨2, fun _ => 5⟩)

/-! ## Lemmas on the byte images and the system calls -/

theorem getD_replicate_self {α : Type} (n i : Nat) (a : α) :
    (List.replicate n a).getD i a = a := by
  induction n generalizing i with
  | zero => simp
  | succ n ih => cases i <;> simp [List.replicate_succ, ih]

theorem entryBytes_zeroEntry (j : Nat) : entryBytes zeroEntry j = 0 := by
  unfold entryBytes zeroEntry
  split_ifs <;> simp [le64, le32, getD_replicate_self]

theorem tableBytes_zero (o : Nat) : tableBytes (List.replicate MAX_FILES zeroEntry) o = 0 := by
  unfold tableBytes
  have : (List.replicate MAX_FILES zeroEntry).getD (o / SIZEOF_ENTRY) zeroEntry = zeroEntry := by
    exact getD_replicate_self _ _ _
  rw [this, entryBytes_zeroEntry]

theorem de32_zero (buf : Nat → Nat) (o : Nat) (h : ∀ k, k < 4 → buf (o + k) = 0) : de32 buf o = 0 := by
  have h0 := h 0 (by omega); have h1 := h 1 (by omega); have h2 := h 2 (by omega); have h3 := h 3 (by omega)
  simp only [Nat.add_zero] at h0
  simp [de32, h0, h1, h2, h3]

theorem de64_zero (buf : Nat → Nat) (o : Nat) (h : ∀ k, k < 8 → buf (o + k) = 0) : de64 buf o = 0 := by
  unfold de64
  apply List.sum_eq_zero
  intro x hx
  simp only [List.mem_map, List.mem_range] at hx
  obtain ⟨i, hi, rfl⟩ := hx
  simp [h i hi]

theorem decodeTable_zero (buf : Nat → Nat) (h : ∀ i, i < SIZEOF_ENTRY * MAX_FILES → buf i = 0) :
    decodeTable buf = List.replicate MAX_FILES zeroEntry := by
  simp only [SIZEOF_ENTRY, MAX_FILES] at h
  rw [List.eq_replicate_iff]
  refine ⟨by simp [decodeTable], ?_⟩
  intro e he
  simp only [decodeTable, List.mem_map, List.mem_range, MAX_FILES, SIZEOF_ENTRY] at he
  obtain ⟨i, hi, rfl⟩ := he
  unfold decodeEntry zeroEntry
  congr 1
  · rw [List.eq_replicate_iff]
    refine ⟨by simp, ?_⟩
    intro b hb
    simp only [List.mem_map, List.mem_range, MAX_PATH] at hb
    obtain ⟨j, hj, rfl⟩ := hb
    exact h _ (by omega)
  · exact de64_zero _ _ (fun k hk => h _ (by omega))
  · exact de32_zero _ _ (fun k hk => h _ (by omega))
  · exact de32_zero _ _ (fun k hk => h _ (by omega))

theorem write_len (f : OpenFile) (n : Nat) (buf : Nat → Nat) (hn : 0 < n) :
    (f.write n buf).len = max f.len (f.pos + n) := by
  simp [OpenFile.write, Nat.pos_iff_ne_zero.mp hn]

theorem write_pos (f : OpenFile) (n : Nat) (buf : Nat → Nat) :
    (f.write n buf).pos = f.pos + n := by
  unfold OpenFile.write
  split_ifs with h
  · simp [h]
  · rfl

theorem write_byte_in (f : OpenFile) (n : Nat) (buf : Nat → Nat) (o : Nat)
    (h1 : f.pos ≤ o) (h2 : o < f.pos + n) : (f.write n buf).byte o = buf (o - f.pos) := by
  have hn : n ≠ 0 := by omega
  simp [OpenFile.write, hn, h1, h2]

theorem write_byte_out (f : OpenFile) (n : Nat) (buf : Nat → Nat) (o : Nat)
    (h1 : o < f.pos ∨ f.pos + n ≤ o) (h2 : o < f.len) : (f.write n buf).byte o = f.byte o := by
  unfold OpenFile.write
  split_ifs with h
  · rfl
  · have : ¬ (f.pos ≤ o ∧ o < f.pos + n) := by omega
    simp [this, h2]

theorem init_fd_eq (c : OpenFile) (v : Int) :
    (init_star_file c v).fd =
      ((({ c with pos := 0 } : OpenFile).write SIZEOF_HEADER (headerBytes ⟨0, -1⟩)).write
        (SIZEOF_ENTRY * MAX_FILES) (tableBytes (List.replicate MAX_FILES zeroEntry))) := rfl

theorem init_fd_len (c : OpenFile) (v : Int) :
    SIZEOF_HEADER + SIZEOF_ENTRY * MAX_FILES ≤ (init_star_file c v).fd.len := by
  rw [init_fd_eq, write_len _ _ _ (by decide), write_pos]
  exact le_max_right _ _

theorem init_fd_header (c : OpenFile) (v : Int) (o : Nat) (h : o < SIZEOF_HEADER) :
    (init_star_file c v).fd.byte o = headerBytes ⟨0, -1⟩ o := by
  rw [init_fd_eq, write_byte_out, write_byte_in]
  · rfl
  · exact Nat.zero_le o
  · simpa using h
  · left; rw [write_pos]; exact h
  · rw [write_len _ _ _ (by decide)]
    exact lt_of_lt_of_le (by simpa using h) (le_max_right _ _)

theorem init_fd_table (c : OpenFile) (v : Int) (o : Nat) (h1 : SIZEOF_HEADER ≤ o)
    (h2 : o < SIZEOF_HEADER + SIZEOF_ENTRY * MAX_FILES) : (init_star_file c v).fd.byte o = 0 := by
  rw [init_fd_eq, write_byte_in, tableBytes_zero]
  · rw [write_pos]; simpa using h1
  · rw [write_pos]; simpa using h2


theorem lseek_len (f : OpenFile) (off : Int) : (f.lseek off).len = f.len := by
  unfold OpenFile.lseek; split_ifs <;> rfl

theorem lseek_byte (f : OpenFile) (off : Int) : (f.lseek off).byte = f.byte := by
  unfold OpenFile.lseek; split_ifs <;> rfl

theorem lseek_pos_nat (f : OpenFile) (n : Nat) : (f.lseek (n : Int)).pos = n := by
  unfold OpenFile.lseek
  rw [if_neg (by omega)]
  simp

theorem seekBlock_len (f : OpenFile) (b : Int) : (seekBlock f b).len = f.len := lseek_len _ _

theorem seekBlock_byte (f : OpenFile) (b : Int) : (seekBlock f b).byte = f.byte := lseek_byte _ _

theorem seekBlock_pos (f : OpenFile) (x : Nat) : (seekBlock f (x : Int)).pos = x * SIZEOF_BLOCK := by
  unfold seekBlock
  rw [← Int.natCast_mul, lseek_pos_nat]

theorem de32_congr (a b : Nat → Nat) (o p : Nat) (h : ∀ k, k < 4 → a (o + k) = b (p + k)) :
    de32 a o = de32 b p := by
  have h0 := h 0 (by omega); have h1 := h 1 (by omega)
  have h2 := h 2 (by omega); have h3 := h 3 (by omega)
  simp only [Nat.add_zero] at h0
  simp only [de32, h0, h1, h2, h3]

theorem de32_le32 (buf : Nat → Nat) (o : Nat) (x : Int)
    (h : ∀ k, k < 4 → buf (o + k) = le32 x k)
    (lo : -2147483648 ≤ x) (hi : x < 2147483648) : de32 buf o = x := by
  have h0 := h 0 (by omega); have h1 := h 1 (by omega)
  have h2 := h 2 (by omega); have h3 := h 3 (by omega)
  simp only [Nat.add_zero] at h0
  simp only [de32, h0, h1, h2, h3, le32]
  norm_num
  split_ifs <;> omega

/-- A read of a block stored in full. -/
theorem readBlock_full (f : OpenFile) (x : Nat) (block : Block)
    (hpos : f.pos = x * SIZEOF_BLOCK) (hin : (x + 1) * SIZEOF_BLOCK ≤ f.len) :
    (readBlock f block).1.next_block = nextOf f x ∧
    (∀ i, i < DATA_SIZE → (readBlock f block).1.data i = f.byte (x * SIZEOF_BLOCK + 4 + i)) ∧
    (readBlock f block).2.len = f.len ∧ (readBlock f block).2.byte = f.byte := by
  have hav : f.avail SIZEOF_BLOCK = SIZEOF_BLOCK := by
    unfold OpenFile.avail; rw [hpos]; simp only [SIZEOF_BLOCK] at *; omega
  refine ⟨?_, ?_, rfl, rfl⟩
  · unfold readBlock decodeBlock nextOf
    apply de32_congr
    intro k hk
    simp only [OpenFile.readBuf, hav, hpos]
    rw [if_pos (by simp only [SIZEOF_BLOCK]; omega), Nat.zero_add]
  · intro i hi
    simp only [readBlock, decodeBlock, OpenFile.readBuf, hav, hpos]
    rw [if_pos (by simp only [SIZEOF_BLOCK, DATA_SIZE] at *; omega)]
    have e : x * SIZEOF_BLOCK + (i + 4) = x * SIZEOF_BLOCK + 4 + i := by omega
    rw [e]

theorem IsChain.congr (f g : OpenFile) (hl : g.len = f.len) (hb : g.byte = f.byte) :
    ∀ (l : List Nat) (b : Int), IsChain f b l → IsChain g b l := by
  intro l
  induction l with
  | nil => intro b h; exact h
  | cons x xs ih =>
    intro b h
    obtain ⟨h1, h2, h3⟩ := h
    refine ⟨h1, by rw [hl]; exact h2, ?_⟩
    have : nextOf g x = nextOf f x := by unfold nextOf; rw [hb]
    rw [this]; exact ih _ h3

theorem walk_chain : ∀ (bs : List Nat) (x : Nat) (f : OpenFile) (block : Block) (b : Int),
    IsChain f b (x :: bs) →
    ∃ fd blk, (∀ fuel, bs.length + 1 ≤ fuel → walk_to_last fuel b f block
        = some ((((x :: bs).getLast (List.cons_ne_nil x bs) : Nat) : Int), fd, blk)) ∧
      fd.len = f.len ∧ fd.byte = f.byte ∧
      ∀ i, i < DATA_SIZE →
        blk.data i = f.byte ((x :: bs).getLast (List.cons_ne_nil x bs) * SIZEOF_BLOCK + 4 + i) := by
  intro bs
  induction bs with
  | nil =>
    intro x f block b h
    obtain ⟨h1, h2, h3⟩ := h
    subst h1
    have hr := readBlock_full (seekBlock f (x : Int)) x block (seekBlock_pos f x)
      (by rw [seekBlock_len]; exact h2)
    simp only [seekBlock_len, seekBlock_byte] at hr
    have hn : nextOf (seekBlock f (x : Int)) x = nextOf f x := by
      unfold nextOf; rw [seekBlock_byte]
    rw [hn] at hr
    have h3' : nextOf f x = -1 := h3
    refine ⟨(readBlock (seekBlock f (x : Int)) block).2,
      (readBlock (seekBlock f (x : Int)) block).1, ?_, hr.2.2.1, hr.2.2.2, ?_⟩
    · intro fuel hf
      obtain ⟨n, rfl⟩ : ∃ n, fuel = n + 1 := ⟨fuel - 1, by simp at hf; omega⟩
      simp only [walk_to_last, hr.1, h3']
      simp
    · simpa using hr.2.1
  | cons y ys ih =>
    intro x f block b h
    obtain ⟨h1, h2, h3⟩ := h
    subst h1
    have hr := readBlock_full (seekBlock f (x : Int)) x block (seekBlock_pos f x)
      (by rw [seekBlock_len]; exact h2)
    simp only [seekBlock_len, seekBlock_byte] at hr
    have hn : nextOf (seekBlock f (x : Int)) x = nextOf f x := by
      unfold nextOf; rw [seekBlock_byte]
    rw [hn] at hr
    have hy : nextOf f x = (y : Int) := h3.1
    have h3' := IsChain.congr f _ hr.2.2.1 hr.2.2.2 _ _ h3
    obtain ⟨fd, blk, e1, e2, e3, e4⟩ := ih y _ (readBlock (seekBlock f (x : Int)) block).1 _ h3'
    refine ⟨fd, blk, ?_, e2.trans hr.2.2.1, e3.trans hr.2.2.2, ?_⟩
    · intro fuel hf
      obtain ⟨n, rfl⟩ : ∃ n, fuel = n + 1 := ⟨fuel - 1, by simp at hf; omega⟩
      have hne : ((y : Int) == -1) = false := by
        rw [beq_eq_false_iff_ne]; omega
      have e1' := e1 n (by simp at hf ⊢; omega)
      simp only [walk_to_last, hr.1, hy, hne]
      rw [hy] at e1'
      simpa using e1'
    · intro i hi
      rw [e4 i hi, hr.2.2.2]
      simp

/-- Writing back the last block of a chain with a new link changes only the
four bytes of the link. -/
theorem writeBack_spec (f fd : OpenFile) (last : Nat) (blk : Block) (h : Int)
    (hl : fd.len = f.len) (hb : fd.byte = f.byte) (hin : (last + 1) * SIZEOF_BLOCK ≤ f.len)
    (hdata : ∀ i, i < DATA_SIZE → blk.data i = f.byte (last * SIZEOF_BLOCK + 4 + i)) :
    (writeBlockAt fd (last : Int) { blk with next_block := h }).len = f.len ∧
    (∀ k, k < 4 →
      (writeBlockAt fd (last : Int) { blk with next_block := h }).byte (last * SIZEOF_BLOCK + k)
        = le32 h k) ∧
    (∀ o, o < f.len → (o < last * SIZEOF_BLOCK ∨ last * SIZEOF_BLOCK + 4 ≤ o) →
      (writeBlockAt fd (last : Int) { blk with next_block := h }).byte o = f.byte o) := by
  have hp := seekBlock_pos fd last
  have hsl : (seekBlock fd (last : Int)).len = f.len := by rw [seekBlock_len, hl]
  have hsb : (seekBlock fd (last : Int)).byte = f.byte := by rw [seekBlock_byte, hb]
  unfold writeBlockAt
  refine ⟨?_, ?_, ?_⟩
  · rw [write_len _ _ _ (by decide), hp, hsl]
    simp only [SIZEOF_BLOCK] at hin ⊢
    omega
  · intro k hk
    rw [write_byte_in _ _ _ _ (by rw [hp]; omega) (by rw [hp]; simp only [SIZEOF_BLOCK]; omega), hp]
    have e : last * SIZEOF_BLOCK + k - last * SIZEOF_BLOCK = k := by omega
    rw [e]
    simp [blockBytes, hk]
  · intro o ho hor
    by_cases hc : o < last * SIZEOF_BLOCK ∨ last * SIZEOF_BLOCK + SIZEOF_BLOCK ≤ o
    · rw [write_byte_out _ _ _ _ (by rw [hp]; exact hc) (by rw [hsl]; exact ho), hsb]
    · have h1 : last * SIZEOF_BLOCK ≤ o := by omega
      have h2 : o < last * SIZEOF_BLOCK + SIZEOF_BLOCK := by omega
      rw [write_byte_in _ _ _ _ (by rw [hp]; exact h1) (by rw [hp]; exact h2), hp]
      have h4 : ¬ (o - last * SIZEOF_BLOCK < 4) := by omega
      simp only [blockBytes, h4, if_false]
      have hd : o - last * SIZEOF_BLOCK - 4 < DATA_SIZE := by
        simp only [SIZEOF_BLOCK, DATA_SIZE] at *; omega
      have e : last * SIZEOF_BLOCK + 4 + (o - last * SIZEOF_BLOCK - 4) = o := by omega
      rw [hdata _ hd, e]

/-- The header and table writes touch only the bytes before the end of the
table. -/
theorem persist_spec (g : OpenFile) (h : StarHeader) (t : List FileEntry) :
    g.len ≤ (persist g h t).len ∧
    ∀ o, SIZEOF_HEADER + SIZEOF_ENTRY * MAX_FILES ≤ o → o < g.len →
      (persist g h t).byte o = g.byte o := by
  have p0 : (g.lseek 0).pos = 0 := lseek_pos_nat g 0
  have l1 : ((g.lseek 0).write SIZEOF_HEADER (headerBytes h)).len = max g.len SIZEOF_HEADER := by
    rw [write_len _ _ _ (by decide), p0, lseek_len, Nat.zero_add]
  have p1 : ((((g.lseek 0).write SIZEOF_HEADER (headerBytes h))).lseek SIZEOF_HEADER).pos
      = SIZEOF_HEADER := lseek_pos_nat _ _
  unfold persist
  constructor
  · rw [write_len _ _ _ (by decide), lseek_len, l1]
    exact le_trans (le_max_left _ _) (le_max_left _ _)
  · intro o h1 h2
    have h3 : SIZEOF_HEADER ≤ o := by
      simp only [SIZEOF_HEADER, SIZEOF_ENTRY, MAX_FILES] at *; omega
    have h4 : o < max g.len SIZEOF_HEADER := lt_of_lt_of_le h2 (le_max_left _ _)
    rw [write_byte_out _ _ _ _ (by rw [p1]; right; exact h1) (by rw [lseek_len, l1]; exact h4),
      lseek_byte,
      write_byte_out _ _ _ _ (by rw [p0, Nat.zero_add]; right; exact h3)
        (by rw [lseek_len]; exact h2),
      lseek_byte]

theorem nextOf_congr (f g : OpenFile) (y : Nat)
    (h : ∀ k, k < 4 → g.byte (y * SIZEOF_BLOCK + k) = f.byte (y * SIZEOF_BLOCK + k)) :
    nextOf g y = nextOf f y := de32_congr _ _ _ _ h

theorem IsChain.transfer (f g : OpenFile) (hl : f.len ≤ g.len) :
    ∀ (l : List Nat) (b : Int), IsChain f b l → (∀ y ∈ l, nextOf g y = nextOf f y) →
      IsChain g b l := by
  intro l
  induction l with
  | nil => intro b h _; exact h
  | cons x xs ih =>
    intro b h hn
    obtain ⟨h1, h2, h3⟩ := h
    refine ⟨h1, le_trans h2 hl, ?_⟩
    rw [hn x (List.mem_cons_self _ _)]
    exact ih _ h3 (fun y hy => hn y (List.mem_cons_of_mem _ hy))

theorem IsChain.splice (f g : OpenFile) (h : Int) (fl : List Nat) (hl : f.len ≤ g.len) :
    ∀ (bs : List Nat) (b : Int) (hne : bs ≠ []), IsChain f b bs → bs.Nodup →
      (∀ y ∈ bs, y ≠ bs.getLast hne → nextOf g y = nextOf f y) →
      nextOf g (bs.getLast hne) = h → IsChain g h fl → IsChain g b (bs ++ fl) := by
  intro bs
  induction bs with
  | nil => intro b hne; exact absurd rfl hne
  | cons x xs ih =>
    intro b hne hc hnd hsame hlast hfl
    obtain ⟨h1, h2, h3⟩ := hc
    cases xs with
    | nil =>
      refine ⟨h1, le_trans h2 hl, ?_⟩
      simp only [List.getLast_singleton] at hlast
      rw [hlast]; exact hfl
    | cons y ys =>
      have hx : x ∉ y :: ys := (List.nodup_cons.mp hnd).1
      have hlastmem : (y :: ys).getLast (List.cons_ne_nil y ys) ∈ y :: ys := List.getLast_mem _
      have hge : (x :: y :: ys).getLast hne = (y :: ys).getLast (List.cons_ne_nil y ys) :=
        List.getLast_cons (List.cons_ne_nil y ys)
      refine ⟨h1, le_trans h2 hl, ?_⟩
      have e : nextOf g x = nextOf f x := by
        apply hsame x (List.mem_cons_self _ _)
        rw [hge]
        intro hh
        exact hx (hh ▸ hlastmem)
      show IsChain g (nextOf g x) ((y :: ys) ++ fl)
      rw [e]
      apply ih _ (List.cons_ne_nil y ys) h3 (List.nodup_cons.mp hnd).2
      · intro z hz hzl
        apply hsame z (List.mem_cons_of_mem _ hz)
        rw [hge]; exact hzl
      · rw [← hge]; exact hlast
      · exact hfl

theorem IsChain.inFile (f : OpenFile) : ∀ (l : List Nat) (b : Int), IsChain f b l →
    ∀ y ∈ l, (y + 1) * SIZEOF_BLOCK ≤ f.len := by
  intro l
  induction l with
  | nil => intro b _ y hy; simp at hy
  | cons x xs ih =>
    intro b h y hy
    obtain ⟨_, h2, h3⟩ := h
    rcases List.mem_cons.mp hy with rfl | hy'
    · exact h2
    · exact ih _ h3 y hy'

/-! ## The bounded loops never use up their fuel -/

/-- Result of `extract_loop` with more fuel than `⌈remaining / DATA_SIZE⌉`
is the result with that much fuel. -/
theorem extract_loop_fuel : ∀ (n m : Nat) (cur : Int) (remaining : Nat) (fd dst : OpenFile)
    (block : Block), (remaining + DATA_SIZE - 1) / DATA_SIZE ≤ n → n ≤ m →
    extract_loop m cur remaining fd dst block = extract_loop n cur remaining fd dst block := by
  intro n
  induction n with
  | zero =>
    intro m cur remaining fd dst block h _
    have h0 : remaining = 0 := by simp only [DATA_SIZE] at h; omega
    subst h0
    cases m <;> simp [extract_loop]
  | succ n ih =>
    intro m cur remaining fd dst block h hm
    obtain ⟨m', rfl⟩ : ∃ m', m = m' + 1 := ⟨m - 1, by omega⟩
    simp only [extract_loop]
    split_ifs with hc hr
    · apply ih _ _ _ _ _ _ _ (by omega)
      simp only [DATA_SIZE] at h hr ⊢; omega
    · apply ih _ _ _ _ _ _ _ (by omega)
      simp only [DATA_SIZE] at h hr ⊢; omega
    · rfl

/-- Result of `pack_chain` with more fuel than `⌈remaining / DATA_SIZE⌉` is
the result with that much fuel. -/
theorem pack_chain_fuel : ∀ (n m : Nat) (cur : Int) (remaining : Nat) (next : Int)
    (fd temp : OpenFile) (block : Block), (remaining + DATA_SIZE - 1) / DATA_SIZE ≤ n → n ≤ m →
    pack_chain m cur remaining next fd temp block
      = pack_chain n cur remaining next fd temp block := by
  intro n
  induction n with
  | zero =>
    intro m cur remaining next fd temp block h _
    have h0 : remaining = 0 := by simp only [DATA_SIZE] at h; omega
    subst h0
    cases m <;> simp [pack_chain]
  | succ n ih =>
    intro m cur remaining next fd temp block h hm
    obtain ⟨m', rfl⟩ : ∃ m', m = m' + 1 := ⟨m - 1, by omega⟩
    simp only [pack_chain]
    split_ifs with hc hr
    · apply ih _ _ _ _ _ _ _ _ (by omega)
      simp only [DATA_SIZE] at h hr ⊢; omega
    · apply ih _ _ _ _ _ _ _ _ (by omega)
      simp only [DATA_SIZE] at h hr ⊢; omega
    · rfl

/-- The fuel `extract_file` and `pack_file` give to their loops is enough. -/
theorem loop_fuel_enough (remaining : Nat) :
    (remaining + DATA_SIZE - 1) / DATA_SIZE ≤ remaining / DATA_SIZE + 1 := by
  simp only [DATA_SIZE]; omega

/-! ## C1 -/

/-- C1. On an archive just created by `init_star_file`, `add_file` of a source
"x" holding the ten bytes "0123456789" returns 0, and `extract_file` of "x"
then returns 0 and writes a destination file of length 0: the entry's first
block is the free-list head -1 and the copy loop is not entered. -/
theorem add_then_extract_fresh_is_empty (container : OpenFile) (verbose : Int)
    (b1 b2 : Block) :
    digits.len = 10 ∧
    (add_file (init_star_file container verbose) [120] (.readable digits) b1).1 = 0 ∧
    (entryAt (add_file (init_star_file container verbose) [120] (.readable digits) b1).2.file_table
      0).first_block = -1 ∧
    (extract_file (add_file (init_star_file container verbose) [120] (.readable digits) b1).2
      [120] true b2).1 = 0 ∧
    (extract_file (add_file (init_star_file container verbose) [120] (.readable digits) b1).2
      [120] true b2).2.2 = some OpenFile.empty :=
  ⟨rfl, rfl, rfl, rfl, rfl⟩

/-! ## C2 -/

theorem decodeHeader_init (buf : Nat → Nat)
    (h : ∀ o, o < SIZEOF_HEADER → buf o = headerBytes ⟨0, -1⟩ o) :
    decodeHeader buf = ⟨0, -1⟩ := by
  simp only [SIZEOF_HEADER] at h
  have e0 := h 0 (by omega); have e1 := h 1 (by omega); have e2 := h 2 (by omega)
  have e3 := h 3 (by omega); have e4 := h 4 (by omega); have e5 := h 5 (by omega)
  have e6 := h 6 (by omega); have e7 := h 7 (by omega)
  simp [headerBytes, le32] at e0 e1 e2 e3 e4 e5 e6 e7
  simp [decodeHeader, de32, e0, e1, e2, e3, e4, e5, e6, e7]

/-- C2. Whatever header and table the container holds, the start of `main`
with an operation other than 'c' hands the dispatch a working header (0, -1)
and a working table of 250 zeroed entries, and the container then holds that
header and that table: `init_star_file` has written them over the old ones
before the re-read. -/
theorem startup_discards_archive (container : OpenFile) (verbose : Int) (operation : Char)
    (hop : operation ≠ 'c') :
    (main_startup container verbose operation).header = ⟨0, -1⟩ ∧
    (main_startup container verbose operation).file_table = List.replicate MAX_FILES zeroEntry ∧
    persistedHeader (main_startup container verbose operation).fd = ⟨0, -1⟩ ∧
    persistedTable (main_startup container verbose operation).fd
      = List.replicate MAX_FILES zeroEntry := by
  have hl := init_fd_len container verbose
  have hh := init_fd_header container verbose
  have ht := init_fd_table container verbose
  simp only [SIZEOF_HEADER, SIZEOF_ENTRY, MAX_FILES] at hl hh ht
  have hm : main_startup container verbose operation = reload (init_star_file container verbose) := by
    simp [main_startup, hop]
  rw [hm]
  refine ⟨?_, ?_, ?_, ?_⟩
  · apply decodeHeader_init
    intro o ho
    simp only [SIZEOF_HEADER] at ho
    simp only [reload, OpenFile.readBuf, OpenFile.lseek, OpenFile.avail, SIZEOF_HEADER]
    simp
    rw [if_pos (by omega)]
    exact hh o ho
  · apply decodeTable_zero
    intro o ho
    simp only [SIZEOF_ENTRY, MAX_FILES] at ho
    simp only [reload, OpenFile.readBuf, OpenFile.lseek, OpenFile.avail, OpenFile.advance,
      SIZEOF_HEADER, SIZEOF_ENTRY, MAX_FILES]
    simp
    have e : min 8 (init_star_file container verbose).fd.len = 8 := by omega
    rw [e, if_pos (by omega)]
    exact ht _ (by omega) (by omega)
  · apply decodeHeader_init
    intro o ho
    simp only [SIZEOF_HEADER] at ho
    simp only [reload, OpenFile.lseek, OpenFile.advance]
    simp
    exact hh o ho
  · apply decodeTable_zero
    intro o ho
    simp only [SIZEOF_ENTRY, MAX_FILES] at ho
    simp only [reload, OpenFile.lseek, OpenFile.advance, SIZEOF_HEADER]
    simp
    exact ht _ (by omega) (by omega)

/-- C2 at a container whose header is (1, 2) and whose table has a used entry,
for the operation 'x'. -/
theorem startup_discards_archive_witness :
    'x' ≠ 'c' ∧ persistedHeader exPack.fd = ⟨1, 2⟩ ∧
    (main_startup exPack.fd 0 'x').header = ⟨0, -1⟩ ∧
    (main_startup exPack.fd 0 'x').file_table = List.replicate MAX_FILES zeroEntry ∧
    persistedHeader (main_startup exPack.fd 0 'x').fd = ⟨0, -1⟩ ∧
    persistedTable (main_startup exPack.fd 0 'x').fd = List.replicate MAX_FILES zeroEntry :=
  ⟨by decide, by decide, startup_discards_archive exPack.fd 0 'x' (by decide)⟩

/-! ## C3 -/

/-- C3. In `exAppendSize` the file "y" has size 300000 in the chain 1, 2.
`append_to_file` of a source of 50 bytes returns 0 and leaves the recorded
size at 300000, and not 300050: the 50 bytes go into the room left in block 2
and are taken off `st.st_size` before it is added to the size. -/
theorem append_partial_fill_keeps_size :
    (entryAt exAppendSize.file_table 0).size = 300000 ∧
    IsChain exAppendSize.fd (entryAt exAppendSize.file_table 0).first_block [1, 2] ∧
    (constFile 50 65).len = 50 ∧
    (append_to_file 2 exAppendSize [121] (.readable (constFile 50 65)) zeroBlock).map
      (fun r => (r.1, (entryAt r.2.file_table 0).size)) = some (0, 300000) := by
  refine ⟨rfl, by decide, rfl, rfl⟩

/-! ## C4 -/

/-- C4. In `exAppendFull` the file "y" is 262140 bytes equal to 1, filling
block 1. After `append_to_file` of the one byte 7, which links the new block 2
after block 1, the file extracted has 262141 bytes and its first byte is 7:
the buffer of the new block has been written over block 1. -/
theorem append_new_block_overwrites_last :
    (entryAt exAppendFull.file_table 0).size = 262140 ∧
    IsChain exAppendFull.fd (entryAt exAppendFull.file_table 0).first_block [1] ∧
    (extract_file exAppendFull [121] true zeroBlock).2.2.map (fun f => (f.len, f.byte 0))
      = some (262140, 1) ∧
    (append_to_file 1 exAppendFull [121] (.readable (constFile 1 7)) zeroBlock).map
      (fun r => (r.1, nextOf r.2.fd 1,
        (extract_file r.2 [121] true zeroBlock).2.2.map (fun f => (f.len, f.byte 0))))
      = some (0, 2, some (262141, 7)) := by
  refine ⟨rfl, by decide, rfl, rfl⟩

/-! ## C5 -/

/-- C5. In `exPack` the file "x" extracts to "0123456789". After `pack_file`
it extracts to "0123", "x" and five NUL bytes: the new block 0 lies on the
header and the table, and the second write of the table covers its payload
from the fifth byte on. -/
theorem pack_changes_extracted_content :
    IsChain exPack.fd (entryAt exPack.file_table 0).first_block [1] ∧
    IsChain exPack.fd exPack.header.first_free_block [2] ∧
    (extract_file exPack [120] true zeroBlock).2.2.map
        (fun f => (f.len, (List.range 10).map f.byte))
      = some (10, [48, 49, 50, 51, 52, 53, 54, 55, 56, 57]) ∧
    (pack_file exPack true zeroBlock).1 = 0 ∧
    (entryAt (pack_file exPack true zeroBlock).2.file_table 0).size = 10 ∧
    (extract_file (pack_file exPack true zeroBlock).2 [120] true zeroBlock).2.2.map
        (fun f => (f.len, (List.range 10).map f.byte))
      = some (10, [48, 49, 50, 51, 120, 0, 0, 0, 0, 0]) := by
  decide!

/-! ## C6 -/

/-- C6. In `exPack` the header is (1, 2), in memory and in the container.
The container that `pack_file` produces holds at offset 0 the header
(-1, 858927408): the link of the new block 0 and the bytes "0123" of its
payload, and not (1, -1). -/
theorem pack_overwrites_header :
    exPack.header = ⟨1, 2⟩ ∧ persistedHeader exPack.fd = ⟨1, 2⟩ ∧
    (pack_file exPack true zeroBlock).1 = 0 ∧
    persistedHeader (pack_file exPack true zeroBlock).2.fd = ⟨-1, 858927408⟩ := by
  decide!

/-! ## Table lookups -/

theorem entryAt_set_self (t : List FileEntry) (i : Nat) (e : FileEntry) (h : i < t.length) :
    entryAt (t.set i e) i = e := by
  simp [entryAt, List.getD_eq_getElem?_getD, List.getElem?_set, h]

theorem entryAt_set_other (t : List FileEntry) (i j : Nat) (e : FileEntry) (h : j ≠ i) :
    entryAt (t.set i e) j = entryAt t j := by
  simp [entryAt, List.getD_eq_getElem?_getD, List.getElem?_set, Ne.symm h]

theorem findFile_some (t : List FileEntry) (name : List Nat) (i : Nat)
    (h : findFile t name = some i) :
    i < MAX_FILES ∧ (entryAt t i).is_used ≠ 0 ∧ streq (entryAt t i).filename name = true ∧
      i < t.length := by
  unfold findFile at h
  have hp := List.find?_some h
  have hm := List.mem_of_find?_eq_some h
  simp only [Bool.and_eq_true, bne_iff_ne, ne_eq] at hp
  refine ⟨List.mem_range.mp hm, hp.1, hp.2, ?_⟩
  by_contra hlt
  apply hp.1
  have : entryAt t i = zeroEntry := by
    simp [entryAt, List.getD_eq_getElem?_getD, List.getElem?_eq_none (not_lt.mp hlt)]
  rw [this]; rfl

theorem findUnused_none (t : List FileEntry)
    (h : ∀ i, i < MAX_FILES → (entryAt t i).is_used ≠ 0) : findUnused t = none := by
  unfold findUnused
  rw [List.find?_eq_none]
  intro i hi
  simpa using h i (List.mem_range.mp hi)

/-! ## C7 -/

/-- C7. When all 250 slots of the table are used, `add_file` of a readable
source returns -1 and the whole state (working header and table, container)
is the one it was called with. -/
theorem add_file_table_full (star : StarFile) (filename : List Nat) (src : OpenFile)
    (block : Block) (hfull : ∀ i, i < MAX_FILES → (entryAt star.file_table i).is_used ≠ 0) :
    add_file star filename (.readable src) block = (-1, star) := by
  simp [add_file, HostFile.stat, findUnused_none _ hfull]

theorem fullTable_used : ∀ i, i < MAX_FILES → (entryAt fullTable i).is_used ≠ 0 := by
  intro i hi
  have e : entryAt fullTable i = { zeroEntry with is_used := 1 } := by
    unfold entryAt fullTable
    rw [List.getD_eq_getElem?_getD]
    simp [List.getElem?_replicate, hi]
  rw [e]
  decide

/-- C7 at a concrete state: the full table over the container of `exPack`. -/
theorem add_file_table_full_witness :
    (∀ i, i < MAX_FILES → (entryAt fullTable i).is_used ≠ 0) ∧
    add_file (mkState ⟨250, -1⟩ fullTable exPack.fd) [120] (.readable digits) zeroBlock
      = (-1, mkState ⟨250, -1⟩ fullTable exPack.fd) :=
  ⟨fullTable_used, add_file_table_full _ _ _ _ fullTable_used⟩

/-! ## C8 -/

theorem IsChain.nil_iff (f : OpenFile) (b : Int) : IsChain f b [] ↔ b = -1 := Iff.rfl

theorem IsChain.head_cons (f : OpenFile) (b : Int) (x : Nat) (xs : List Nat)
    (h : IsChain f b (x :: xs)) : b = (x : Int) := h.1

/-- C8, as amended. Let the name be found in slot `i`, let `bs` be the chain of
that entry and `fl` the free list, all of their blocks having an index of at
least 1 (block 0 occupies the bytes of the header and of the table) and no
block occurring twice in `bs ++ fl`. Then `delete_file` returns 0 with any fuel
of at least the length of `bs`; afterwards the free list read from the header
is `bs ++ fl`, the file count is one less, slot `i` is unused and every other
slot is as before. When `bs` is empty the free-list head and every byte of the
blocks of index 1 and more are unchanged. -/
theorem delete_file_prepends_chain (star : StarFile) (filename : List Nat) (block : Block)
    (i : Nat) (bs fl : List Nat)
    (hfind : findFile star.file_table filename = some i)
    (hchain : IsChain star.fd (entryAt star.file_table i).first_block bs)
    (hfree : IsChain star.fd star.header.first_free_block fl)
    (hnodup : (bs ++ fl).Nodup)
    (hpos : ∀ b ∈ bs ++ fl, 1 ≤ b)
    (hint : star.header.first_free_block < 2147483648) :
    ∃ star', (∀ fuel, bs.length ≤ fuel → delete_file fuel star filename block = some (0, star')) ∧
      IsChain star'.fd star'.header.first_free_block (bs ++ fl) ∧
      star'.header.num_files = star.header.num_files - 1 ∧
      (entryAt star'.file_table i).is_used = 0 ∧
      (∀ j, j ≠ i → entryAt star'.file_table j = entryAt star.file_table j) ∧
      (bs = [] → star'.header.first_free_block = star.header.first_free_block ∧
        ∀ o, SIZEOF_BLOCK ≤ o → o < star.fd.len → star'.fd.byte o = star.fd.byte o) := by
  obtain ⟨_, _, _, hilen⟩ := findFile_some _ _ _ hfind
  have hlow : -2147483648 ≤ star.header.first_free_block := by
    cases fl with
    | nil => have := (IsChain.nil_iff _ _).mp hfree; omega
    | cons y ys => have := hfree.1; omega
  -- a block of index at least 1 lies after the table
  have hafter : ∀ y k, 1 ≤ y → SIZEOF_HEADER + SIZEOF_ENTRY * MAX_FILES ≤ y * SIZEOF_BLOCK + k := by
    intro y k hy
    simp only [SIZEOF_HEADER, SIZEOF_ENTRY, MAX_FILES, SIZEOF_BLOCK]
    omega
  cases bs with
  | nil =>
    have hcur : (entryAt star.file_table i).first_block = -1 := hchain
    refine ⟨{ star with
        header := { num_files := star.header.num_files - 1,
                    first_free_block := star.header.first_free_block }
        file_table := star.file_table.set i { entryAt star.file_table i with is_used := 0 }
        fd := persist star.fd
          { num_files := star.header.num_files - 1,
            first_free_block := star.header.first_free_block }
          (star.file_table.set i { entryAt star.file_table i with is_used := 0 }) },
      ?_, ?_, rfl, ?_, ?_, ?_⟩
    · intro fuel _
      simp only [delete_file, hfind, hcur]
      rfl
    · have hp := persist_spec star.fd
        { num_files := star.header.num_files - 1,
          first_free_block := star.header.first_free_block }
        (star.file_table.set i { entryAt star.file_table i with is_used := 0 })
      apply IsChain.transfer star.fd _ hp.1 _ _ hfree
      intro y hy
      have hy1 : 1 ≤ y := hpos y (by simpa using hy)
      have hin := IsChain.inFile _ _ _ hfree y hy
      apply nextOf_congr
      intro k hk
      apply hp.2 _ (hafter y k hy1)
      simp only [SIZEOF_BLOCK] at hin ⊢; omega
    · exact congrArg FileEntry.is_used (entryAt_set_self _ _ _ hilen)
    · intro j hj
      exact entryAt_set_other _ _ _ _ hj
    · intro _
      refine ⟨rfl, ?_⟩
      intro o ho hlt
      have hp := persist_spec star.fd
        { num_files := star.header.num_files - 1,
          first_free_block := star.header.first_free_block }
        (star.file_table.set i { entryAt star.file_table i with is_used := 0 })
      apply hp.2 _ _ hlt
      simp only [SIZEOF_HEADER, SIZEOF_ENTRY, MAX_FILES, SIZEOF_BLOCK] at ho ⊢; omega
  | cons x xs =>
    have hcur : (entryAt star.file_table i).first_block = (x : Int) := hchain.1
    obtain ⟨fd, blk, hw, hl, hb, hdata⟩ := walk_chain xs x star.fd block _ hchain
    have hlastmem : (x :: xs).getLast (List.cons_ne_nil x xs) ∈ x :: xs := List.getLast_mem _
    have hlastin := IsChain.inFile _ _ _ hchain _ hlastmem
    obtain ⟨wl, wk, wo⟩ := writeBack_spec star.fd fd _ blk star.header.first_free_block hl hb
      hlastin hdata
    have hp := persist_spec
      (writeBlockAt fd (((x :: xs).getLast (List.cons_ne_nil x xs) : Nat) : Int)
        { blk with next_block := star.header.first_free_block })
      { num_files := star.header.num_files - 1, first_free_block := (x : Int) }
      (star.file_table.set i { entryAt star.file_table i with is_used := 0 })
    rw [wl] at hp
    have hnd := List.nodup_append.mp hnodup
    -- the links after the two writes
    have hkeep : ∀ y, 1 ≤ y → (y + 1) * SIZEOF_BLOCK ≤ star.fd.len →
        y ≠ (x :: xs).getLast (List.cons_ne_nil x xs) →
        nextOf (persist (writeBlockAt fd (((x :: xs).getLast (List.cons_ne_nil x xs) : Nat) : Int)
          { blk with next_block := star.header.first_free_block })
          { num_files := star.header.num_files - 1, first_free_block := (x : Int) }
          (star.file_table.set i { entryAt star.file_table i with is_used := 0 })) y
          = nextOf star.fd y := by
      intro y hy1 hin hne
      apply nextOf_congr
      intro k hk
      have hlt : y * SIZEOF_BLOCK + k < star.fd.len := by
        simp only [SIZEOF_BLOCK] at hin ⊢; omega
      rw [hp.2 _ (hafter y k hy1) hlt]
      apply wo _ hlt
      simp only [SIZEOF_BLOCK]
      omega
    have hnew : nextOf (persist (writeBlockAt fd
          (((x :: xs).getLast (List.cons_ne_nil x xs) : Nat) : Int)
          { blk with next_block := star.header.first_free_block })
          { num_files := star.header.num_files - 1, first_free_block := (x : Int) }
          (star.file_table.set i { entryAt star.file_table i with is_used := 0 }))
          ((x :: xs).getLast (List.cons_ne_nil x xs)) = star.header.first_free_block := by
      unfold nextOf
      apply de32_le32 _ _ _ _ hlow hint
      intro k hk
      have hy1 : 1 ≤ (x :: xs).getLast (List.cons_ne_nil x xs) :=
        hpos _ (List.mem_append_left _ hlastmem)
      have hlt : (x :: xs).getLast (List.cons_ne_nil x xs) * SIZEOF_BLOCK + k < star.fd.len := by
        simp only [SIZEOF_BLOCK] at hlastin ⊢; omega
      rw [hp.2 _ (hafter _ k hy1) hlt]
      exact wk k hk
    refine ⟨{ star with
        header := { num_files := star.header.num_files - 1, first_free_block := (x : Int) }
        file_table := star.file_table.set i { entryAt star.file_table i with is_used := 0 }
        fd := persist (writeBlockAt fd (((x :: xs).getLast (List.cons_ne_nil x xs) : Nat) : Int)
            { blk with next_block := star.header.first_free_block })
          { num_files := star.header.num_files - 1, first_free_block := (x : Int) }
          (star.file_table.set i { entryAt star.file_table i with is_used := 0 }) },
      ?_, ?_, rfl, ?_, ?_, ?_⟩
    · intro fuel hfuel
      have hne : ((x : Int) != -1) = true := by
        rw [bne_iff_ne]; omega
      have hw' := hw fuel (by simpa using hfuel)
      rw [hcur] at hw'
      simp only [delete_file, hfind, hcur, hne, if_true, hw', Option.map_some']
    · show IsChain _ (x : Int) ((x :: xs) ++ fl)
      apply IsChain.splice star.fd _ star.header.first_free_block fl hp.1 (x :: xs) _
        (List.cons_ne_nil x xs) (hcur ▸ hchain) hnd.1
      · intro y hy hne
        exact hkeep y (hpos y (List.mem_append_left _ hy)) (IsChain.inFile _ _ _ hchain y hy) hne
      · exact hnew
      · apply IsChain.transfer star.fd _ hp.1 _ _ hfree
        intro y hy
        apply hkeep y (hpos y (List.mem_append_right _ hy)) (IsChain.inFile _ _ _ hfree y hy)
        intro he
        exact hnd.2.2 hlastmem (he ▸ hy)
    · exact congrArg FileEntry.is_used (entryAt_set_self _ _ _ hilen)
    · intro j hj
      exact entryAt_set_other _ _ _ _ hj
    · intro h; exact absurd h (List.cons_ne_nil x xs)

/-- C8 at `exPack`: the chain of "x" is block 1 and the free list is block 2. -/
theorem delete_file_prepends_chain_witness :
    findFile exPack.file_table [120] = some 0 ∧
    IsChain exPack.fd (entryAt exPack.file_table 0).first_block [1] ∧
    IsChain exPack.fd exPack.header.first_free_block [2] ∧
    ([1] ++ [2]).Nodup ∧ (∀ b ∈ [1] ++ [2], 1 ≤ b) ∧
    exPack.header.first_free_block < 2147483648 ∧
    ∃ star', (∀ fuel, [1].length ≤ fuel →
        delete_file fuel exPack [120] zeroBlock = some (0, star')) ∧
      IsChain star'.fd star'.header.first_free_block ([1] ++ [2]) ∧
      star'.header.num_files = exPack.header.num_files - 1 ∧
      (entryAt star'.file_table 0).is_used = 0 ∧
      (∀ j, j ≠ 0 → entryAt star'.file_table j = entryAt exPack.file_table j) ∧
      ([1] = ([] : List Nat) → star'.header.first_free_block = exPack.header.first_free_block ∧
        ∀ o, SIZEOF_BLOCK ≤ o → o < exPack.fd.len → star'.fd.byte o = exPack.fd.byte o) :=
  ⟨by decide, by decide, by decide, by decide, by decide, by decide,
    delete_file_prepends_chain exPack [120] zeroBlock 0 [1] [2] (by decide) (by decide)
      (by decide) (by decide) (by decide) (by decide)⟩

/-- C8 as stated fails at `exDeleteZero`: the chain of "x" is 0, 1 (the link of
block 0 is the file count 1), the free list is empty. `delete_file` returns 0
and sets the free-list head to 0, but it also writes the file count 0 where
block 0 keeps its link, so that the free list read from the head is not 0, 1. -/
theorem delete_file_chain_through_block_zero :
    findFile exDeleteZero.file_table [120] = some 0 ∧
    IsChain exDeleteZero.fd (entryAt exDeleteZero.file_table 0).first_block [0, 1] ∧
    IsChain exDeleteZero.fd exDeleteZero.header.first_free_block [] ∧
    ([0, 1] ++ ([] : List Nat)).Nodup ∧
    (delete_file 2 exDeleteZero [120] zeroBlock).map (fun r =>
      (r.1, r.2.header.first_free_block, nextOf r.2.fd 0,
        decide (IsChain r.2.fd r.2.header.first_free_block ([0, 1] ++ []))))
      = some (0, 0, 0, false) := by
  refine ⟨by decide, by decide, by decide, by decide, rfl⟩

/-! ## C9 -/

/-- C9. In `exReuse` the file "x" has the chain 3, 1 in a container of four
blocks. `delete_file` of "x" returns 0 and makes 3 the free-list head;
`add_file` of a source of 262145 bytes, which takes two blocks, then returns 0
with first block 3 and the chain 3, 4: block 4 is not a freed block and lies
past the previous end of the container, which grows to five blocks. -/
theorem add_after_delete_leaves_freed_chain :
    IsChain exReuse.fd (entryAt exReuse.file_table 0).first_block [3, 1] ∧
    exReuse.fd.len = 4 * SIZEOF_BLOCK ∧
    (delete_file 2 exReuse [120] zeroBlock).map (fun d =>
      (d.1, d.2.header.first_free_block,
        (add_file d.2 [121] (.readable (constFile 262145 7)) zeroBlock).1,
        (entryAt (add_file d.2 [121] (.readable (constFile 262145 7)) zeroBlock).2.file_table
          0).first_block,
        decide (IsChain (add_file d.2 [121] (.readable (constFile 262145 7)) zeroBlock).2.fd 3
          [3, 4]),
        (add_file d.2 [121] (.readable (constFile 262145 7)) zeroBlock).2.fd.len))
      = some (0, 3, 0, 3, true, 5 * SIZEOF_BLOCK) := by
  refine ⟨by decide, rfl, ?_⟩
  decide!

/-! ## The comparison of `update_file` -/

theorem bufEq_true (a b : Nat → Nat) : ∀ (n s : Nat), (∀ i, i < n → a (s + i) = b (s + i)) →
    bufEq a b n s = true := by
  intro n
  induction n with
  | zero => intro s _; rfl
  | succ n ih =>
    intro s h
    have h0 := h 0 (Nat.succ_pos n)
    rw [Nat.add_zero] at h0
    simp only [bufEq, h0, beq_self_eq_true, Bool.true_and]
    apply ih
    intro i hi
    have := h (i + 1) (by omega)
    rw [show s + 1 + i = s + (i + 1) by omega]
    exact this

/-- One iteration of the comparison loop on equal buffers. -/
theorem compare_loop_step (fuel : Nat) (cur : Int) (fd src : OpenFile) (ob nb : Block)
    (hcur : cur ≠ -1)
    (heq : bufEq (readBlock (seekBlock fd cur) ob).1.data (src.readBuf DATA_SIZE nb.data)
      DATA_SIZE 0 = true) :
    compare_loop (fuel + 1) cur fd src ob nb =
      compare_loop fuel (readBlock (seekBlock fd cur) ob).1.next_block
        (readBlock (seekBlock fd cur) ob).2 (src.advance DATA_SIZE)
        (readBlock (seekBlock fd cur) ob).1
        { nb with data := src.readBuf DATA_SIZE nb.data } := by
  simp [compare_loop, hcur, heq]

/-- Unfolding of `update_file` on a name found in slot `i` whose recorded size is that of the
readable source. -/
theorem update_file_same_size (fuel : Nat) (star : StarFile) (filename : List Nat)
    (src : OpenFile) (ob nb db ab : Block) (i : Nat)
    (hfind : findFile star.file_table filename = some i)
    (hsize : (entryAt star.file_table i).size = src.len % 18446744073709551616) :
    update_file fuel star filename (.readable src) ob nb db ab =
      (compare_loop fuel (entryAt star.file_table i).first_block star.fd { src with pos := 0 }
        ob nb).bind fun c =>
          if c.1 then
            (delete_file fuel { star with fd := c.2 } filename db).map
              fun r => add_file r.2 filename (.readable src) ab
          else some (0, { star with fd := c.2 }) := by
  simp only [update_file, HostFile.stat, HostFile.openRead, hfind, hsize, beq_self_eq_true, if_true]
  cases compare_loop fuel (entryAt star.file_table i).first_block star.fd { src with pos := 0 }
    ob nb <;> rfl

/-- The payload of block 1 of `exUpdate` is 7 throughout. -/
theorem exUpdate_block1 (o : Nat) (h1 : SIZEOF_BLOCK + 4 ≤ o) (h2 : o < 2 * SIZEOF_BLOCK) :
    exUpdate.fd.byte o = 7 := by
  have hp := persist_spec
    (writeBlockAt (writeBlockAt OpenFile.empty 1 ⟨2, fun _ => 7⟩) 2
      ⟨-1, fun i => if i = 0 then 7 else 0⟩) ⟨1, -1⟩ (oneEntry [120] 262141 1)
  have hlen : (writeBlockAt (writeBlockAt OpenFile.empty 1 ⟨2, fun _ => 7⟩) 2
      ⟨-1, fun i => if i = 0 then 7 else 0⟩).len = 3 * SIZEOF_BLOCK := by decide
  have hlen1 : (writeBlockAt OpenFile.empty 1 ⟨2, fun _ => 7⟩).len = 2 * SIZEOF_BLOCK := by decide
  have hpos2 : (seekBlock (writeBlockAt OpenFile.empty 1 ⟨2, fun _ => 7⟩) 2).pos
      = 2 * SIZEOF_BLOCK := by decide
  have hpos1 : (seekBlock OpenFile.empty 1).pos = SIZEOF_BLOCK := by decide
  simp only [SIZEOF_BLOCK, SIZEOF_HEADER, SIZEOF_ENTRY, MAX_FILES] at *
  show (persist _ _ _).byte o = 7
  rw [hp.2 o (by omega) (by rw [hlen]; omega)]
  show ((seekBlock _ 2).write SIZEOF_BLOCK _).byte o = 7
  rw [write_byte_out _ _ _ _ (by rw [hpos2]; omega) (by rw [seekBlock_len, hlen1]; omega),
    seekBlock_byte]
  show ((seekBlock _ 1).write SIZEOF_BLOCK _).byte o = 7
  rw [write_byte_in _ _ _ _ (by rw [hpos1]; omega) (by rw [hpos1]; simp only [SIZEOF_BLOCK]; omega),
    hpos1]
  have : ¬ (o - 262144 < 4) := by omega
  simp [blockBytes, this]

theorem exUpdate_first_compare :
    bufEq (readBlock (seekBlock exUpdate.fd 1) zeroBlock).1.data
      (({ constFile 262141 7 with pos := 0 } : OpenFile).readBuf DATA_SIZE zeroBlock.data)
      DATA_SIZE 0 = true := by
  apply bufEq_true
  intro i hi
  have hr := readBlock_full (seekBlock exUpdate.fd ((1 : Nat) : Int)) 1 zeroBlock
    (seekBlock_pos _ 1) (by decide)
  have e : (readBlock (seekBlock exUpdate.fd 1) zeroBlock).1.data (0 + i)
      = (seekBlock exUpdate.fd ((1 : Nat) : Int)).byte (1 * SIZEOF_BLOCK + 4 + i) := by
    rw [Nat.zero_add]; exact hr.2.1 i hi
  rw [e, seekBlock_byte, exUpdate_block1 _ (by simp only [SIZEOF_BLOCK]; omega)
    (by simp only [SIZEOF_BLOCK, DATA_SIZE] at *; omega)]
  have hav : ({ constFile 262141 7 with pos := 0 } : OpenFile).avail DATA_SIZE = DATA_SIZE := by
    decide
  simp only [OpenFile.readBuf, hav, Nat.zero_add, hi, if_true]
  rfl

/-- C10. In `exUpdate` the file "x" holds 262141 bytes equal to 7 in the chain
1, 2 and the working and persisted headers are (1, -1). `update_file` with a
source of the same 262141 bytes finds a difference in the second block, past
the end of the file, deletes and adds again: it returns 0 with the working and
the persisted header changed to (1, 1). -/
theorem update_file_unchanged_source_rewrites :
    IsChain exUpdate.fd (entryAt exUpdate.file_table 0).first_block [1, 2] ∧
    (extract_file exUpdate [120] true zeroBlock).2.2.map
        (fun f => (f.len, f.byte 0, f.byte 262139, f.byte 262140)) = some (262141, 7, 7, 7) ∧
    exUpdate.header = ⟨1, -1⟩ ∧ persistedHeader exUpdate.fd = ⟨1, -1⟩ ∧
    (update_file 2 exUpdate [120] (.readable (constFile 262141 7)) zeroBlock zeroBlock zeroBlock
        zeroBlock).map (fun r => (r.1, r.2.header, persistedHeader r.2.fd))
      = some (0, ⟨1, 1⟩, ⟨1, 1⟩) := by
  refine ⟨by decide!, by decide!, by decide!, by decide!, ?_⟩
  rw [update_file_same_size 2 exUpdate [120] (constFile 262141 7) zeroBlock zeroBlock zeroBlock
    zeroBlock 0 (by decide!) (by decide!)]
  have hfb : (entryAt exUpdate.file_table 0).first_block = 1 := by decide!
  rw [hfb, compare_loop_step 1 1 exUpdate.fd _ zeroBlock zeroBlock (by decide)
    exUpdate_first_compare]
  decide!

/-! ## C12 and C13: names that are not in the table -/

theorem findFile_none (t : List FileEntry) (name : List Nat) (h : Absent t name) :
    findFile t name = none := by
  unfold findFile
  rw [List.find?_eq_none]
  intro i hi
  have hlt := List.mem_range.mp hi
  by_cases hu : (entryAt t i).is_used = 0
  · simp [hu]
  · simp [h i hlt hu]

theorem entryAt_replicate_zero (n i : Nat) : entryAt (List.replicate n zeroEntry) i = zeroEntry :=
  getD_replicate_self n i zeroEntry

theorem absent_fresh (container : OpenFile) (verbose : Int) (name : List Nat) :
    Absent (init_star_file container verbose).file_table name := by
  intro i _ hu
  exfalso
  apply hu
  show (entryAt (List.replicate MAX_FILES zeroEntry) i).is_used = 0
  rw [entryAt_replicate_zero]
  rfl

theorem absent_exDeleted : Absent exDeleted.file_table [120] := by
  intro i _ hu
  exfalso
  apply hu
  cases i with
  | zero => rfl
  | succ j =>
    show (entryAt (List.replicate 249 zeroEntry) j).is_used = 0
    rw [entryAt_replicate_zero]
    rfl

/-- C12. When the name matches no used entry, `update_file` returns what
`add_file` returns on the same state and source, with the same header, table
and container (also when `stat` fails: both return -1 and change nothing). -/
theorem update_file_absent_is_add (fuel : Nat) (star : StarFile) (filename : List Nat)
    (host : HostFile) (old_block new_block del_block add_block : Block)
    (habs : Absent star.file_table filename) :
    update_file fuel star filename host old_block new_block del_block add_block
      = some (add_file star filename host add_block) := by
  have hf := findFile_none _ _ habs
  cases host <;> simp [update_file, add_file, HostFile.stat, hf]

/-- C12 on a new archive, for the source "x" holding "0123456789". -/
theorem update_file_absent_is_add_witness :
    Absent (init_star_file OpenFile.empty 0).file_table [120] ∧
    update_file 0 (init_star_file OpenFile.empty 0) [120] (.readable digits) zeroBlock zeroBlock
        zeroBlock zeroBlock
      = some (add_file (init_star_file OpenFile.empty 0) [120] (.readable digits) zeroBlock) :=
  ⟨absent_fresh _ _ _, update_file_absent_is_add 0 _ [120] _ _ _ _ _ (absent_fresh _ _ _)⟩

/-- C13. When the name matches no used entry (entries whose used flag is clear
do not count, whatever their name), `extract_file`, `delete_file` and
`append_to_file` return -1, with any fuel, and the state they return is the
state they were given: header, table and container are unchanged, and no
destination file is written. -/
theorem not_found_leaves_archive (star : StarFile) (filename : List Nat) (dst_ok : Bool)
    (host : HostFile) (block : Block) (fuel : Nat)
    (habs : Absent star.file_table filename) :
    extract_file star filename dst_ok block = (-1, star, none) ∧
    delete_file fuel star filename block = some (-1, star) ∧
    append_to_file fuel star filename host block = some (-1, star) := by
  have hf := findFile_none _ _ habs
  refine ⟨?_, ?_, ?_⟩
  · simp [extract_file, hf]
  · simp [delete_file, hf]
  · simp [append_to_file, hf]

/-- C13 at `exDeleted`, whose slot 0 bears the name "x" with the used flag
clear. -/
theorem not_found_leaves_archive_witness :
    (entryAt exDeleted.file_table 0).is_used = 0 ∧
    streq (entryAt exDeleted.file_table 0).filename [120] = true ∧
    Absent exDeleted.file_table [120] ∧
    extract_file exDeleted [120] true zeroBlock = (-1, exDeleted, none) ∧
    delete_file 0 exDeleted [120] zeroBlock = some (-1, exDeleted) ∧
    append_to_file 0 exDeleted [120] (.readable digits) zeroBlock = some (-1, exDeleted) :=
  ⟨rfl, by decide, absent_exDeleted,
    not_found_leaves_archive exDeleted [120] true (.readable digits) zeroBlock 0 absent_exDeleted⟩

/-! ## C14: what `extract_file` writes -/

theorem content_length (f : OpenFile) : f.content.length = f.len := by
  simp [OpenFile.content]

/-- A write at the end of a file appends the bytes written. -/
theorem content_write_at_end (f : OpenFile) (n : Nat) (buf : Nat → Nat) (h : f.pos = f.len) :
    (f.write n buf).content = f.content ++ (List.range n).map buf ∧
    (f.write n buf).pos = (f.write n buf).len := by
  by_cases hn : n = 0
  · subst hn
    simp [OpenFile.write, h]
  · have hlen : (f.write n buf).len = f.len + n := by
      rw [write_len _ _ _ (Nat.pos_of_ne_zero hn), h]
      exact max_eq_right (Nat.le_add_right _ _)
    refine ⟨?_, ?_⟩
    · unfold OpenFile.content
      rw [hlen, List.range_add, List.map_append, List.map_map]
      congr 1
      · apply List.map_congr_left
        intro o ho
        exact write_byte_out _ _ _ _ (by left; rw [h]; exact List.mem_range.mp ho)
          (List.mem_range.mp ho)
      · apply List.map_congr_left
        intro i hi
        have hi' := List.mem_range.mp hi
        show (f.write n buf).byte (f.len + i) = buf i
        rw [write_byte_in _ _ _ _ (by rw [h]; omega) (by rw [h]; omega), h]
        congr 1
        omega
    · rw [write_pos, hlen, h]

theorem payload_length (f : OpenFile) (b : Nat) : (payload f b).length = DATA_SIZE := by
  simp [payload]

theorem payload_congr (f g : OpenFile) (h : g.byte = f.byte) : payload g = payload f := by
  funext b
  unfold payload
  rw [h]

/-- The copy loop of `extract_file` along a chain. -/
theorem extract_loop_chain : ∀ (fuel : Nat) (bs : List Nat) (cur : Int) (remaining : Nat)
    (fd dst : OpenFile) (block : Block),
    IsChain fd cur bs → dst.pos = dst.len → (remaining + DATA_SIZE - 1) / DATA_SIZE ≤ fuel →
    (extract_loop fuel cur remaining fd dst block).1.len = fd.len ∧
    (extract_loop fuel cur remaining fd dst block).1.byte = fd.byte ∧
    (extract_loop fuel cur remaining fd dst block).2.content
      = dst.content ++ (bs.flatMap (payload fd)).take remaining := by
  intro fuel
  induction fuel with
  | zero =>
    intro bs cur remaining fd dst block _ _ hf
    have h0 : remaining = 0 := by simp only [DATA_SIZE] at hf; omega
    subst h0
    simp [extract_loop]
  | succ n ih =>
    intro bs cur remaining fd dst block hc hd hf
    by_cases hr : remaining = 0
    · subst hr
      simp [extract_loop]
    · cases bs with
      | nil =>
        have hcur : cur = -1 := hc
        subst hcur
        simp [extract_loop]
      | cons x xs =>
        obtain ⟨h1, h2, h3⟩ := hc
        subst h1
        have hr' := readBlock_full (seekBlock fd (x : Int)) x block (seekBlock_pos fd x)
          (by rw [seekBlock_len]; exact h2)
        simp only [seekBlock_len, seekBlock_byte] at hr'
        have hn : nextOf (seekBlock fd (x : Int)) x = nextOf fd x := by
          unfold nextOf; rw [seekBlock_byte]
        rw [hn] at hr'
        obtain ⟨e1, e2, e3, e4⟩ := hr'
        have hne : ((x : Int) != -1) = true := by rw [bne_iff_ne]; omega
        have hpos : decide (remaining > 0) = true := by
          rw [decide_eq_true_iff]; omega
        have hw := content_write_at_end dst
          (if remaining > DATA_SIZE then DATA_SIZE else remaining)
          (readBlock (seekBlock fd (x : Int)) block).1.data hd
        have ih' := ih xs (nextOf fd x)
          (remaining - (if remaining > DATA_SIZE then DATA_SIZE else remaining))
          (readBlock (seekBlock fd (x : Int)) block).2
          (dst.write (if remaining > DATA_SIZE then DATA_SIZE else remaining)
            (readBlock (seekBlock fd (x : Int)) block).1.data)
          (readBlock (seekBlock fd (x : Int)) block).1
          (IsChain.congr fd _ e3 e4 _ _ h3) hw.2
          (by simp only [DATA_SIZE] at hf ⊢; split_ifs <;> omega)
        simp only [extract_loop, hne, hpos, Bool.and_self, if_true, e1]
        refine ⟨ih'.1.trans e3, ih'.2.1.trans e4, ?_⟩
        rw [ih'.2.2, hw.1, payload_congr fd _ e4, List.flatMap_cons, List.append_assoc]
        congr 1
        rw [List.take_append_eq_append_take, payload_length]
        have hpay : (List.range (if remaining > DATA_SIZE then DATA_SIZE else remaining)).map
            (readBlock (seekBlock fd (x : Int)) block).1.data
            = (payload fd x).take remaining := by
          unfold payload
          rw [← List.map_take, List.take_range]
          have hm : (if remaining > DATA_SIZE then DATA_SIZE else remaining)
              = min remaining DATA_SIZE := by
            split_ifs with hgt
            · exact (min_eq_right (le_of_lt hgt)).symm
            · exact (min_eq_left (not_lt.mp hgt)).symm
          rw [hm]
          apply List.map_congr_left
          intro i hi
          have hi' := List.mem_range.mp hi
          exact e2 i (lt_of_lt_of_le hi' (min_le_right _ _))
        have he : remaining - (if remaining > DATA_SIZE then DATA_SIZE else remaining)
            = remaining - DATA_SIZE := by
          split_ifs <;> omega
        rw [hpay, he]

/-- C14. For a name found in slot `i` whose chain is `bs`, `extract_file`
returns 0, leaves the header, the table and every byte of the container as
they were, and writes a destination whose bytes are the first `size` bytes of
the payloads of the blocks of `bs` put end to end: `min size (k * 262140)`
bytes for a chain of `k` blocks, never more than `size`. -/
theorem extract_file_respects_size (star : StarFile) (filename : List Nat) (block : Block)
    (i : Nat) (bs : List Nat)
    (hfind : findFile star.file_table filename = some i)
    (hchain : IsChain star.fd (entryAt star.file_table i).first_block bs) :
    ∃ fd dst, extract_file star filename true block = (0, { star with fd := fd }, some dst) ∧
      fd.len = star.fd.len ∧ fd.byte = star.fd.byte ∧
      dst.content = (bs.flatMap (payload star.fd)).take (entryAt star.file_table i).size ∧
      dst.len = min (entryAt star.file_table i).size (bs.length * DATA_SIZE) ∧
      dst.len ≤ (entryAt star.file_table i).size := by
  have hl := extract_loop_chain ((entryAt star.file_table i).size / DATA_SIZE + 1) bs
    (entryAt star.file_table i).first_block (entryAt star.file_table i).size star.fd
    OpenFile.empty block hchain rfl (loop_fuel_enough _)
  have hflat : ∀ l : List Nat, (l.flatMap (payload star.fd)).length = l.length * DATA_SIZE := by
    intro l
    induction l with
    | nil => simp
    | cons x xs ih => rw [List.flatMap_cons, List.length_append, ih, payload_length,
        List.length_cons]; ring
  have hcont : (extract_loop ((entryAt star.file_table i).size / DATA_SIZE + 1)
      (entryAt star.file_table i).first_block (entryAt star.file_table i).size star.fd
      OpenFile.empty block).2.content
      = (bs.flatMap (payload star.fd)).take (entryAt star.file_table i).size := by
    rw [hl.2.2]
    simp [OpenFile.content, OpenFile.empty]
  have hlen := congrArg List.length hcont
  rw [content_length, List.length_take, hflat] at hlen
  refine ⟨_, _, ?_, hl.1, hl.2.1, hcont, hlen, ?_⟩
  · simp [extract_file, hfind]
  · rw [hlen]; exact min_le_left _ _

/-- C14 at `exPack`: "x" has size 10 and the chain of block 1. -/
theorem extract_file_respects_size_witness :
    findFile exPack.file_table [120] = some 0 ∧
    IsChain exPack.fd (entryAt exPack.file_table 0).first_block [1] ∧
    ∃ fd dst, extract_file exPack [120] true zeroBlock = (0, { exPack with fd := fd }, some dst) ∧
      fd.len = exPack.fd.len ∧ fd.byte = exPack.fd.byte ∧
      dst.content = ([1].flatMap (payload exPack.fd)).take (entryAt exPack.file_table 0).size ∧
      dst.len = min (entryAt exPack.file_table 0).size ([1].length * DATA_SIZE) ∧
      dst.len ≤ (entryAt exPack.file_table 0).size :=
  ⟨by decide, by decide,
    extract_file_respects_size exPack [120] zeroBlock 0 [1] (by decide) (by decide)⟩

/-! ## C19: the table after `add_file` -/

theorem find_range_lowest (p : Nat → Bool) : ∀ (n i : Nat), i < n → p i = true →
    (∀ j, j < i → p j = false) → (List.range n).find? p = some i := by
  intro n
  induction n with
  | zero => intro i hi; omega
  | succ n ih =>
    intro i hi hp hlow
    rw [List.range_succ, List.find?_append]
    by_cases hin : i < n
    · rw [ih i hin hp hlow]; rfl
    · have hi' : i = n := by omega
      subst hi'
      have hnone : (List.range i).find? p = none := by
        rw [List.find?_eq_none]
        intro j hj
        simp [hlow j (List.mem_range.mp hj)]
      rw [hnone]
      simp [List.find?, hp]

theorem findUnused_lowest (t : List FileEntry) (i : Nat) (hi : i < MAX_FILES)
    (hun : (entryAt t i).is_used = 0) (hlow : ∀ j, j < i → (entryAt t j).is_used ≠ 0) :
    findUnused t = some i := by
  unfold findUnused
  apply find_range_lowest _ _ _ hi
  · simp [hun]
  · intro j hj
    simpa using hlow j hj

theorem cstr_of_no_nul (s : List Nat) (h : ∀ c ∈ s, c ≠ 0) : cstr s = s := by
  unfold cstr
  rw [List.takeWhile_eq_self_iff]
  intro c hc
  simpa using h c hc

/-- The field written by `strncpy(dst, name, 255)` for a name of at most 255
bytes: the name, NUL-padded to 255 bytes, then the bytes of `dst` from 255. -/
theorem strncpy_name (dst name : List Nat) (h : ∀ c ∈ name, c ≠ 0) (hl : name.length ≤ 255) :
    strncpy dst name (MAX_PATH - 1)
      = (name ++ List.replicate (255 - name.length) 0) ++ dst.drop 255 := by
  unfold strncpy
  rw [cstr_of_no_nul _ h]
  have : MAX_PATH - 1 = 255 := rfl
  rw [this, List.take_of_length_le hl]

theorem streq_strncpy (dst name : List Nat) (h : ∀ c ∈ name, c ≠ 0) (hl : name.length ≤ 255)
    (hterm : name.length < 255 ∨ dst.getD 255 0 = 0) :
    streq (strncpy dst name (MAX_PATH - 1)) name = true := by
  unfold streq
  rw [strncpy_name dst name h hl, cstr_of_no_nul name h, beq_iff_eq]
  unfold cstr
  rw [List.append_assoc, List.takeWhile_append_of_pos (by intro c hc; simpa using h c hc)]
  have hrest : List.takeWhile (fun c => c != 0)
      (List.replicate (255 - name.length) 0 ++ dst.drop 255) = [] := by
    rcases hterm with hlt | hz
    · obtain ⟨k, hk⟩ : ∃ k, 255 - name.length = k + 1 := ⟨254 - name.length, by omega⟩
      rw [hk, List.replicate_succ]
      simp
    · have h0 : 255 - name.length = 0 ∨ 0 < 255 - name.length := by omega
      rcases h0 with h0 | h0
      · rw [h0]
        simp only [List.replicate_zero, List.nil_append]
        cases hd : dst.drop 255 with
        | nil => rfl
        | cons c cs =>
          have hh : (dst.drop 255).head? = dst[255]? := List.head?_drop dst 255
          rw [hd] at hh
          simp only [List.head?_cons] at hh
          rw [List.getD_eq_getElem?_getD, ← hh] at hz
          simp only [Option.getD_some] at hz
          subst hz
          simp
      · obtain ⟨k, hk⟩ : ∃ k, 255 - name.length = k + 1 := ⟨254 - name.length, by omega⟩
        rw [hk, List.replicate_succ]
        simp
  rw [hrest, List.append_nil]

/-- C19. Let slot `i` be the lowest unused slot of the 250 and let the source
be readable, its name being a C string of at most 255 bytes. Then `add_file`
returns 0; afterwards slot `i` holds the name (its first 255 bytes are the name
padded with NULs, and `strcmp` with the name gives 0 when the name is shorter
than 255 bytes or the slot's last byte was 0), the length of the source as
size and the used flag 1; every other slot is as before and the file count is
one more. -/
theorem add_file_table_postcondition (star : StarFile) (filename : List Nat) (src : OpenFile)
    (block : Block) (i : Nat)
    (hlen : star.file_table.length = MAX_FILES)
    (hi : i < MAX_FILES)
    (hun : (entryAt star.file_table i).is_used = 0)
    (hlow : ∀ j, j < i → (entryAt star.file_table j).is_used ≠ 0)
    (hname : ∀ c ∈ filename, c ≠ 0) (hnlen : filename.length ≤ 255) :
    (add_file star filename (.readable src) block).1 = 0 ∧
    (entryAt (add_file star filename (.readable src) block).2.file_table i).filename.take 255
      = filename ++ List.replicate (255 - filename.length) 0 ∧
    (filename.length < 255 ∨ (entryAt star.file_table i).filename.getD 255 0 = 0 →
      streq (entryAt (add_file star filename (.readable src) block).2.file_table i).filename
        filename = true) ∧
    (entryAt (add_file star filename (.readable src) block).2.file_table i).size = src.len ∧
    (entryAt (add_file star filename (.readable src) block).2.file_table i).is_used = 1 ∧
    (∀ j, j ≠ i → entryAt (add_file star filename (.readable src) block).2.file_table j
      = entryAt star.file_table j) ∧
    (add_file star filename (.readable src) block).2.header.num_files
      = star.header.num_files + 1 := by
  have hf := findUnused_lowest star.file_table i hi hun hlow
  have hil : i < star.file_table.length := by rw [hlen]; exact hi
  have hadd : add_file star filename (.readable src) block =
      (0, { star with
        header := { star.header with num_files := star.header.num_files + 1 }
        file_table := star.file_table.set i
          { filename := strncpy (entryAt star.file_table i).filename filename (MAX_PATH - 1)
            size := src.len
            first_block := star.header.first_free_block
            is_used := 1 }
        fd := persist
          (add_loop (wrap32 (((src.len + BLOCK_SIZE - 1) / BLOCK_SIZE : Nat) : Int)).toNat
            star.header.first_free_block star.fd { src with pos := 0 } block)
          { star.header with num_files := star.header.num_files + 1 }
          (star.file_table.set i
            { filename := strncpy (entryAt star.file_table i).filename filename (MAX_PATH - 1)
              size := src.len
              first_block := star.header.first_free_block
              is_used := 1 }) }) := by
    simp only [add_file, HostFile.stat, HostFile.openRead, HostFile.readFails, hf, Bool.false_and,
      Bool.false_eq_true, if_false]
  rw [hadd]
  refine ⟨rfl, ?_, ?_, ?_, ?_, ?_, rfl⟩
  · show (entryAt (star.file_table.set i _) i).filename.take 255 = _
    rw [entryAt_set_self _ _ _ hil]
    show (strncpy _ filename (MAX_PATH - 1)).take 255 = _
    rw [strncpy_name _ _ hname hnlen]
    apply List.take_left'
    rw [List.length_append, List.length_replicate]
    omega
  · intro hterm
    show streq (entryAt (star.file_table.set i _) i).filename filename = true
    rw [entryAt_set_self _ _ _ hil]
    exact streq_strncpy _ _ hname hnlen hterm
  · show (entryAt (star.file_table.set i _) i).size = src.len
    rw [entryAt_set_self _ _ _ hil]
  · show (entryAt (star.file_table.set i _) i).is_used = 1
    rw [entryAt_set_self _ _ _ hil]
  · intro j hj
    exact entryAt_set_other _ _ _ _ hj

theorem exPack_table_length : exPack.file_table.length = MAX_FILES := by
  show (oneEntry [120] 10 1).length = MAX_FILES
  unfold oneEntry
  rw [List.length_cons, List.length_replicate]
  rfl

/-- C19 at `exPack`, whose lowest unused slot is slot 1, for the source "y"
holding "0123456789". -/
theorem add_file_table_postcondition_witness :
    exPack.file_table.length = MAX_FILES ∧ 1 < MAX_FILES ∧
    (entryAt exPack.file_table 1).is_used = 0 ∧
    (∀ j, j < 1 → (entryAt exPack.file_table j).is_used ≠ 0) ∧
    (∀ c ∈ [121], c ≠ 0) ∧ [121].length ≤ 255 ∧
    (add_file exPack [121] (.readable digits) zeroBlock).1 = 0 ∧
    (entryAt (add_file exPack [121] (.readable digits) zeroBlock).2.file_table 1).filename.take 255
      = [121] ++ List.replicate (255 - [121].length) 0 ∧
    ([121].length < 255 ∨ (entryAt exPack.file_table 1).filename.getD 255 0 = 0 →
      streq (entryAt (add_file exPack [121] (.readable digits) zeroBlock).2.file_table 1).filename
        [121] = true) ∧
    (entryAt (add_file exPack [121] (.readable digits) zeroBlock).2.file_table 1).size
      = digits.len ∧
    (entryAt (add_file exPack [121] (.readable digits) zeroBlock).2.file_table 1).is_used = 1 ∧
    (∀ j, j ≠ 1 → entryAt (add_file exPack [121] (.readable digits) zeroBlock).2.file_table j
      = entryAt exPack.file_table j) ∧
    (add_file exPack [121] (.readable digits) zeroBlock).2.header.num_files
      = exPack.header.num_files + 1 :=
  ⟨exPack_table_length, by decide, by decide, by decide, by decide, by decide,
    add_file_table_postcondition exPack [121] digits zeroBlock 1 exPack_table_length (by decide)
      (by decide) (by decide) (by decide) (by decide)⟩

/-! ## C17: where a block is read and written -/

/-- Unfolding of `update_file` on a name found in slot `i` whose recorded size
is not that of the source: `delete_file`, then `add_file`. -/
theorem update_file_size_differs (fuel : Nat) (star : StarFile) (filename : List Nat)
    (src : OpenFile) (ob nb db ab : Block) (i : Nat)
    (hfind : findFile star.file_table filename = some i)
    (hsize : (entryAt star.file_table i).size ≠ src.len % 18446744073709551616) :
    update_file fuel star filename (.readable src) ob nb db ab =
      (delete_file fuel star filename db).map
        fun r => add_file r.2 filename (.readable src) ab := by
  simp [update_file, HostFile.stat, hfind, hsize]

/-- C11. In `exFreshAdded` the entry "x" has size 10 and first block -1, and
byte 68012 of the container is the first byte "0" of the source added.
`update_file` with a source "x" holding "9876543210", of the same length,
returns 0 and leaves that byte as it is: the comparison loop is not entered.
`delete_file` followed by `add_file` puts "9" there. -/
theorem update_file_skips_entry_without_chain :
    (entryAt exFreshAdded.file_table 0).size = 10 ∧
    (entryAt exFreshAdded.file_table 0).first_block = -1 ∧
    digitsRev.len = 10 ∧ exFreshAdded.fd.byte 68012 = 48 ∧
    (update_file 1 exFreshAdded [120] (.readable digitsRev) zeroBlock zeroBlock zeroBlock
        zeroBlock).map (fun r => (r.1, r.2.fd.byte 68012)) = some (0, 48) ∧
    (delete_file 1 exFreshAdded [120] zeroBlock).map (fun d =>
        (d.1, (add_file d.2 [120] (.readable digitsRev) zeroBlock).1,
          (add_file d.2 [120] (.readable digitsRev) zeroBlock).2.fd.byte 68012))
      = some (0, 0, 57) := by
  decide!

/-! ## C15 -/

/-- C15. In `exPack` the chain of "x" is block 1 and the free list is block 2:
they are disjoint. `add_file` of "y" holding "0123456789" returns 0, leaves the
free-list head at 2 and gives the used entry "y", in slot 1, the first block
2: the head of the free list is now a block of a used entry's chain. -/
theorem add_file_keeps_free_head_live :
    IsChain exPack.fd (entryAt exPack.file_table 0).first_block [1] ∧
    IsChain exPack.fd exPack.header.first_free_block [2] ∧
    (add_file exPack [121] (.readable digits) zeroBlock).1 = 0 ∧
    (add_file exPack [121] (.readable digits) zeroBlock).2.header.first_free_block = 2 ∧
    (entryAt (add_file exPack [121] (.readable digits) zeroBlock).2.file_table 1).is_used = 1 ∧
    (entryAt (add_file exPack [121] (.readable digits) zeroBlock).2.file_table 1).first_block
      = 2 ∧
    IsChain (add_file exPack [121] (.readable digits) zeroBlock).2.fd 2 [2] := by
  decide!

/-! ## C16 -/

/-- C16. In `exFreshAdded`, reached from a new archive by one `add_file` that
returns 0, the used entry "x" has size 10, which takes one block, and first
block -1: its chain has no block. -/
theorem add_file_fresh_has_no_chain :
    (add_file (init_star_file OpenFile.empty 0) [120] (.readable digits) zeroBlock).1 = 0 ∧
    (entryAt exFreshAdded.file_table 0).is_used = 1 ∧
    (entryAt exFreshAdded.file_table 0).size = 10 ∧
    (10 + DATA_SIZE - 1) / DATA_SIZE = 1 ∧
    (entryAt exFreshAdded.file_table 0).first_block = -1 ∧
    IsChain exFreshAdded.fd (entryAt exFreshAdded.file_table 0).first_block [] := by
  decide!

/-! ## C18 -/

/-- C18. On `exPack`, whose free-list head is block 2, `add_file` of a source
"y" of 262142 bytes, which take two blocks of 262140 payload bytes, returns 0
and writes one block: the chain of "y" is block 2 alone, and `extract_file`
gives back 262140 bytes. -/
theorem add_file_counts_whole_blocks :
    (262142 + DATA_SIZE - 1) / DATA_SIZE = 2 ∧
    (add_file exPack [121] (.readable (constFile 262142 7)) zeroBlock).1 = 0 ∧
    (entryAt (add_file exPack [121] (.readable (constFile 262142 7)) zeroBlock).2.file_table
      1).size = 262142 ∧
    IsChain (add_file exPack [121] (.readable (constFile 262142 7)) zeroBlock).2.fd
      (entryAt (add_file exPack [121] (.readable (constFile 262142 7)) zeroBlock).2.file_table
        1).first_block [2] ∧
    (add_file exPack [121] (.readable (constFile 262142 7)) zeroBlock).2.fd.len
      = 3 * SIZEOF_BLOCK ∧
    (extract_file (add_file exPack [121] (.readable (constFile 262142 7)) zeroBlock).2 [121]
      true zeroBlock).2.2.map (fun f => f.len) = some 262140 := by
  decide!

/-! ## C20 -/

/-- C20. In `exRelay` the file "x" of 300000 bytes has the chain 5, 2, and the
payload bytes of blocks 1, 2 and 5 are 1, 2 and 5. `pack_file` returns 0 and
gives "x" the first block 0; new block 0 has the link 1 and the payload of old
block 5, new block 1 has the link -1 and the payload of old block 1, not of
old block 2: the walk goes on from the link just set, 1. -/
theorem pack_file_follows_new_links :
    IsChain exRelay.fd (entryAt exRelay.file_table 0).first_block [5, 2] ∧
    (300000 + DATA_SIZE - 1) / DATA_SIZE = 2 ∧
    exRelay.fd.byte (5 * SIZEOF_BLOCK + 4 + 100000) = 5 ∧
    exRelay.fd.byte (2 * SIZEOF_BLOCK + 4) = 2 ∧
    exRelay.fd.byte (1 * SIZEOF_BLOCK + 4) = 1 ∧
    (pack_file exRelay true zeroBlock).1 = 0 ∧
    (entryAt (pack_file exRelay true zeroBlock).2.file_table 0).first_block = 0 ∧
    nextOf (pack_file exRelay true zeroBlock).2.fd 0 = 1 ∧
    (pack_file exRelay true zeroBlock).2.fd.byte (0 * SIZEOF_BLOCK + 4 + 100000) = 5 ∧
    nextOf (pack_file exRelay true zeroBlock).2.fd 1 = -1 ∧
    (pack_file exRelay true zeroBlock).2.fd.byte (1 * SIZEOF_BLOCK + 4) = 1 := by
  decide!

/-! ## C21: where `add_file` puts its blocks -/

theorem add_loop_eq_writeRun : ∀ (k : Nat) (cur : Int) (fd src : OpenFile) (block : Block),
    add_loop k cur fd src block = writeRun fd cur (addBlocks k cur src block) := by
  intro k
  induction k with
  | zero => intro cur fd src block; rfl
  | succ k ih =>
    intro cur fd src block
    by_cases hk : k = 0
    · subst hk
      simp only [add_loop, addBlocks, writeRun]
    · simp only [add_loop, addBlocks, writeRun, hk, if_false]
      rw [ih]

theorem addBlocks_length : ∀ (k : Nat) (cur : Int) (src : OpenFile) (block : Block),
    (addBlocks k cur src block).length = k := by
  intro k
  induction k with
  | zero => intro cur src block; rfl
  | succ k ih => intro cur src block; simp only [addBlocks, List.length_cons, ih]

/-- The links of the blocks of `add_file`: the next index, and -1 in the
last. -/
theorem addBlocks_links : ∀ (k : Nat) (cur : Int) (src : OpenFile) (block : Block) (i : Nat)
    (b : Block), (addBlocks k cur src block)[i]? = some b →
    b.next_block = if i + 1 = k then -1 else cur + i + 1 := by
  intro k
  induction k with
  | zero => intro cur src block i b h; simp [addBlocks] at h
  | succ k ih =>
    intro cur src block i b h
    cases i with
    | zero =>
      simp only [addBlocks, List.getElem?_cons_zero, Option.some.injEq] at h
      subst h
      by_cases hk : k = 0
      · simp [hk]
      · simp [hk]
    | succ j =>
      simp only [addBlocks, List.getElem?_cons_succ] at h
      have := ih _ _ _ j b h
      rw [this]
      by_cases hj : j + 1 = k
      · simp [hj]
      · have : ¬ (j + 1 + 1 = k + 1) := by omega
        simp only [hj, this, if_false]
        push_cast
        ring

theorem writeBlockAt_len_ge (f : OpenFile) (b : Int) (blk : Block) :
    f.len ≤ (writeBlockAt f b blk).len := by
  unfold writeBlockAt
  rw [write_len _ _ _ (by decide), seekBlock_len]
  exact le_max_left _ _

theorem writeBlockAt_nat_len (f : OpenFile) (x : Nat) (blk : Block) :
    (x + 1) * SIZEOF_BLOCK ≤ (writeBlockAt f (x : Int) blk).len := by
  unfold writeBlockAt
  rw [write_len _ _ _ (by decide), seekBlock_pos]
  have : x * SIZEOF_BLOCK + SIZEOF_BLOCK = (x + 1) * SIZEOF_BLOCK := by ring
  rw [this]
  exact le_max_right _ _

theorem writeBlockAt_byte_out (f : OpenFile) (x : Nat) (blk : Block) (o : Nat)
    (ho : o < x * SIZEOF_BLOCK ∨ (x + 1) * SIZEOF_BLOCK ≤ o) (hlt : o < f.len) :
    (writeBlockAt f (x : Int) blk).byte o = f.byte o := by
  unfold writeBlockAt
  rw [write_byte_out _ _ _ _ (by rw [seekBlock_pos]; simp only [SIZEOF_BLOCK] at ho ⊢; omega)
    (by rw [seekBlock_len]; exact hlt), seekBlock_byte]

theorem writeBlockAt_byte_in (f : OpenFile) (x : Nat) (blk : Block) (k : Nat)
    (hk : k < SIZEOF_BLOCK) :
    (writeBlockAt f (x : Int) blk).byte (x * SIZEOF_BLOCK + k) = blockBytes blk k := by
  unfold writeBlockAt
  rw [write_byte_in _ _ _ _ (by rw [seekBlock_pos]; omega) (by rw [seekBlock_pos]; omega),
    seekBlock_pos]
  have e : x * SIZEOF_BLOCK + k - x * SIZEOF_BLOCK = k := by omega
  rw [e]

/-- A run written from index `x` leaves the bytes before block `x` alone. -/
theorem writeRun_below : ∀ (bs : List Block) (x : Nat) (fd : OpenFile) (o : Nat),
    o < x * SIZEOF_BLOCK → o < fd.len →
    (writeRun fd (x : Int) bs).byte o = fd.byte o ∧ fd.len ≤ (writeRun fd (x : Int) bs).len := by
  intro bs
  induction bs with
  | nil => intro x fd o _ _; exact ⟨rfl, le_refl _⟩
  | cons b bs ih =>
    intro x fd o ho hlt
    have hstep : writeRun fd (x : Int) (b :: bs)
        = writeRun (writeBlockAt fd (x : Int) b) ((x + 1 : Nat) : Int) bs := by
      simp only [writeRun]; push_cast; rfl
    rw [hstep]
    have hge := writeBlockAt_len_ge fd (x : Int) b
    have hx : o < (x + 1) * SIZEOF_BLOCK := by simp only [SIZEOF_BLOCK] at ho ⊢; omega
    obtain ⟨h1, h2⟩ := ih (x + 1) (writeBlockAt fd (x : Int) b) o hx (lt_of_lt_of_le hlt hge)
    refine ⟨?_, le_trans hge h2⟩
    rw [h1]
    exact writeBlockAt_byte_out fd x b o (Or.inl ho) hlt

/-- A run written from index `x` puts its `i`-th block on the bytes of block
`x + i`. -/
theorem writeRun_bytes : ∀ (bs : List Block) (x : Nat) (fd : OpenFile) (i : Nat) (b : Block),
    bs[i]? = some b → ∀ k, k < SIZEOF_BLOCK →
    (writeRun fd (x : Int) bs).byte ((x + i) * SIZEOF_BLOCK + k) = blockBytes b k := by
  intro bs
  induction bs with
  | nil => intro x fd i b h; simp at h
  | cons b0 rest ih =>
    intro x fd i b h k hk
    have hstep : writeRun fd (x : Int) (b0 :: rest)
        = writeRun (writeBlockAt fd (x : Int) b0) ((x + 1 : Nat) : Int) rest := by
      simp only [writeRun]; push_cast; rfl
    rw [hstep]
    cases i with
    | zero =>
      simp only [List.getElem?_cons_zero, Option.some.injEq] at h
      subst h
      have hlen := writeBlockAt_nat_len fd x b0
      have ho : (x + 0) * SIZEOF_BLOCK + k < (x + 1) * SIZEOF_BLOCK := by
        simp only [SIZEOF_BLOCK] at hk ⊢; omega
      rw [(writeRun_below rest (x + 1) _ _ ho (lt_of_lt_of_le ho hlen)).1, Nat.add_zero]
      exact writeBlockAt_byte_in fd x b0 k hk
    | succ j =>
      simp only [List.getElem?_cons_succ] at h
      have := ih (x + 1) (writeBlockAt fd (x : Int) b0) j b h k hk
      have e : (x + (j + 1)) * SIZEOF_BLOCK + k = (x + 1 + j) * SIZEOF_BLOCK + k := by ring
      rw [e]
      exact this

/-- What `add_file` does with the free-list head. Let slot `i` be the lowest
unused slot of the 250, `h` the free-list head and `m` the number of blocks
that `add_file` allots to the readable source, which is its length divided by
262144, rounded up, and not the number of blocks of 262140 payload bytes that
the source needs. Then `add_file` returns 0, leaves the free-list head at `h`
and gives the new entry the first block `h`. The container it leaves is the
one obtained by seeking to the indices `h`, `h + 1`, ..., `h + m - 1`, writing
a block after each seek, and then writing the header and the table. These
blocks are made from the source alone, nothing being read from the container:
block `j` has the link `h + j + 1`, and -1 when it is the last. When `h` is an
index `x` of at least 0, block `j` lies on the bytes of block `x + j`; the
seek to the index -1 fails. -/
theorem add_file_writes_run_from_free_head (star : StarFile) (filename : List Nat)
    (src : OpenFile) (block : Block) (i : Nat)
    (hlen : star.file_table.length = MAX_FILES)
    (hi : i < MAX_FILES)
    (hun : (entryAt star.file_table i).is_used = 0)
    (hlow : ∀ j, j < i → (entryAt star.file_table j).is_used ≠ 0) :
    (add_file star filename (.readable src) block).1 = 0 ∧
    (add_file star filename (.readable src) block).2.header.first_free_block
      = star.header.first_free_block ∧
    (entryAt (add_file star filename (.readable src) block).2.file_table i).first_block
      = star.header.first_free_block ∧
    (add_file star filename (.readable src) block).2.fd
      = persist
          (writeRun star.fd star.header.first_free_block
            (addBlocks (wrap32 (((src.len + BLOCK_SIZE - 1) / BLOCK_SIZE : Nat) : Int)).toNat
              star.header.first_free_block { src with pos := 0 } block))
          (add_file star filename (.readable src) block).2.header
          (add_file star filename (.readable src) block).2.file_table ∧
    (addBlocks (wrap32 (((src.len + BLOCK_SIZE - 1) / BLOCK_SIZE : Nat) : Int)).toNat
      star.header.first_free_block { src with pos := 0 } block).length
      = (wrap32 (((src.len + BLOCK_SIZE - 1) / BLOCK_SIZE : Nat) : Int)).toNat ∧
    (∀ j b, (addBlocks (wrap32 (((src.len + BLOCK_SIZE - 1) / BLOCK_SIZE : Nat) : Int)).toNat
        star.header.first_free_block { src with pos := 0 } block)[j]? = some b →
      b.next_block
        = if j + 1 = (wrap32 (((src.len + BLOCK_SIZE - 1) / BLOCK_SIZE : Nat) : Int)).toNat
          then -1 else star.header.first_free_block + j + 1) ∧
    (∀ x : Nat, star.header.first_free_block = (x : Int) → ∀ j b,
      (addBlocks (wrap32 (((src.len + BLOCK_SIZE - 1) / BLOCK_SIZE : Nat) : Int)).toNat
        star.header.first_free_block { src with pos := 0 } block)[j]? = some b →
      ∀ k, k < SIZEOF_BLOCK →
        (writeRun star.fd star.header.first_free_block
          (addBlocks (wrap32 (((src.len + BLOCK_SIZE - 1) / BLOCK_SIZE : Nat) : Int)).toNat
            star.header.first_free_block { src with pos := 0 } block)).byte
          ((x + j) * SIZEOF_BLOCK + k) = blockBytes b k) := by
  have hf := findUnused_lowest star.file_table i hi hun hlow
  have hil : i < star.file_table.length := by rw [hlen]; exact hi
  have hadd : add_file star filename (.readable src) block =
      (0, { star with
        header := { star.header with num_files := star.header.num_files + 1 }
        file_table := star.file_table.set i
          { filename := strncpy (entryAt star.file_table i).filename filename (MAX_PATH - 1)
            size := src.len
            first_block := star.header.first_free_block
            is_used := 1 }
        fd := persist
          (add_loop (wrap32 (((src.len + BLOCK_SIZE - 1) / BLOCK_SIZE : Nat) : Int)).toNat
            star.header.first_free_block star.fd { src with pos := 0 } block)
          { star.header with num_files := star.header.num_files + 1 }
          (star.file_table.set i
            { filename := strncpy (entryAt star.file_table i).filename filename (MAX_PATH - 1)
              size := src.len
              first_block := star.header.first_free_block
              is_used := 1 }) }) := by
    simp only [add_file, HostFile.stat, HostFile.openRead, HostFile.readFails, hf, Bool.false_and,
      Bool.false_eq_true, if_false]
  rw [hadd]
  refine ⟨rfl, rfl, ?_, ?_, addBlocks_length _ _ _ _, addBlocks_links _ _ _ _, ?_⟩
  · show (entryAt (star.file_table.set i _) i).first_block = _
    rw [entryAt_set_self _ _ _ hil]
  · show persist (add_loop _ _ _ _ _) _ _ = persist (writeRun _ _ _) _ _
    rw [add_loop_eq_writeRun]
  · intro x hx j b hb k hk
    rw [hx] at hb ⊢
    exact writeRun_bytes _ x star.fd j b hb k hk

/-- The run that `add_file` writes on `exPack`, whose free-list head is block
2 and whose lowest unused slot is slot 1, for a source of 262145 bytes, which
gets two blocks. -/
theorem add_file_writes_run_from_free_head_witness :
    exPack.file_table.length = MAX_FILES ∧ 1 < MAX_FILES ∧
    (entryAt exPack.file_table 1).is_used = 0 ∧
    (∀ j, j < 1 → (entryAt exPack.file_table j).is_used ≠ 0) ∧
    exPack.header.first_free_block = 2 ∧
    (wrap32 ((((constFile 262145 7).len + BLOCK_SIZE - 1) / BLOCK_SIZE : Nat) : Int)).toNat = 2 ∧
    (add_file exPack [121] (.readable (constFile 262145 7)) zeroBlock).1 = 0 ∧
    (add_file exPack [121] (.readable (constFile 262145 7)) zeroBlock).2.header.first_free_block
      = exPack.header.first_free_block ∧
    (entryAt (add_file exPack [121] (.readable (constFile 262145 7)) zeroBlock).2.file_table
      1).first_block = exPack.header.first_free_block ∧
    (add_file exPack [121] (.readable (constFile 262145 7)) zeroBlock).2.fd
      = persist
          (writeRun exPack.fd exPack.header.first_free_block
            (addBlocks
              (wrap32 ((((constFile 262145 7).len + BLOCK_SIZE - 1) / BLOCK_SIZE : Nat) : Int)).toNat
              exPack.header.first_free_block { constFile 262145 7 with pos := 0 } zeroBlock))
          (add_file exPack [121] (.readable (constFile 262145 7)) zeroBlock).2.header
          (add_file exPack [121] (.readable (constFile 262145 7)) zeroBlock).2.file_table ∧
    (addBlocks
      (wrap32 ((((constFile 262145 7).len + BLOCK_SIZE - 1) / BLOCK_SIZE : Nat) : Int)).toNat
      exPack.header.first_free_block { constFile 262145 7 with pos := 0 } zeroBlock).length
      = (wrap32 ((((constFile 262145 7).len + BLOCK_SIZE - 1) / BLOCK_SIZE : Nat) : Int)).toNat ∧
    (∀ j b, (addBlocks
        (wrap32 ((((constFile 262145 7).len + BLOCK_SIZE - 1) / BLOCK_SIZE : Nat) : Int)).toNat
        exPack.header.first_free_block { constFile 262145 7 with pos := 0 } zeroBlock)[j]?
          = some b →
      b.next_block
        = if j + 1
            = (wrap32 ((((constFile 262145 7).len + BLOCK_SIZE - 1) / BLOCK_SIZE : Nat) : Int)).toNat
          then -1 else exPack.header.first_free_block + j + 1) ∧
    (∀ x : Nat, exPack.header.first_free_block = (x : Int) → ∀ j b,
      (addBlocks
        (wrap32 ((((constFile 262145 7).len + BLOCK_SIZE - 1) / BLOCK_SIZE : Nat) : Int)).toNat
        exPack.header.first_free_block { constFile 262145 7 with pos := 0 } zeroBlock)[j]?
          = some b →
      ∀ k, k < SIZEOF_BLOCK →
        (writeRun exPack.fd exPack.header.first_free_block
          (addBlocks
            (wrap32
              ((((constFile 262145 7).len + BLOCK_SIZE - 1) / BLOCK_SIZE : Nat) : Int)).toNat
            exPack.header.first_free_block { constFile 262145 7 with pos := 0 } zeroBlock)).byte
          ((x + j) * SIZEOF_BLOCK + k) = blockBytes b k) :=
  ⟨exPack_table_length, by decide, by decide, by decide, by decide, by decide,
    add_file_writes_run_from_free_head exPack [121] (constFile 262145 7) zeroBlock 1
      exPack_table_length (by decide) (by decide) (by decide)⟩

/-- C21. On `exPack`, whose free-list head is block 2 and whose container has
three blocks, a source "y" of 262142 bytes needs two blocks of 262140 payload
bytes. `add_file` returns 0, leaves the free-list head at 2 and gives "y" the
first block 2, but it writes one block only: block 2 gets the link -1, not 3,
and no block is written at index 3, the container keeping its three blocks.
On the new archive of `exFreshAdded`, whose free-list head was -1, the block
of "x" was written at no index: it lies at byte 68008, where the table ends. -/
theorem add_file_run_shorter_than_needed :
    exPack.header.first_free_block = 2 ∧
    exPack.fd.len = 3 * SIZEOF_BLOCK ∧
    (constFile 262142 7).len = 262142 ∧
    (262142 + DATA_SIZE - 1) / DATA_SIZE = 2 ∧
    (add_file exPack [121] (.readable (constFile 262142 7)) zeroBlock).1 = 0 ∧
    (add_file exPack [121] (.readable (constFile 262142 7)) zeroBlock).2.header.first_free_block
      = 2 ∧
    (entryAt (add_file exPack [121] (.readable (constFile 262142 7)) zeroBlock).2.file_table
      1).first_block = 2 ∧
    nextOf (add_file exPack [121] (.readable (constFile 262142 7)) zeroBlock).2.fd 2 = -1 ∧
    (add_file exPack [121] (.readable (constFile 262142 7)) zeroBlock).2.fd.len
      = 3 * SIZEOF_BLOCK ∧
    (init_star_file OpenFile.empty 0).header.first_free_block = -1 ∧
    (init_star_file OpenFile.empty 0).fd.len = SIZEOF_HEADER + SIZEOF_ENTRY * MAX_FILES ∧
    (add_file (init_star_file OpenFile.empty 0) [120] (.readable digits) zeroBlock).1 = 0 ∧
    (entryAt exFreshAdded.file_table 0).first_block = -1 ∧
    de32 exFreshAdded.fd.byte (SIZEOF_HEADER + SIZEOF_ENTRY * MAX_FILES) = -1 ∧
    (List.range 10).map
        (fun k => exFreshAdded.fd.byte (SIZEOF_HEADER + SIZEOF_ENTRY * MAX_FILES + 4 + k))
      = [48, 49, 50, 51, 52, 53, 54, 55, 56, 57] ∧
    exFreshAdded.fd.len = SIZEOF_HEADER + SIZEOF_ENTRY * MAX_FILES + SIZEOF_BLOCK := by
  decide!

/-! ## C22: the file count and the used entries -/

theorem countP_range_flip (p q : Nat → Bool) (i : Nat) : ∀ (n : Nat), i < n →
    p i = false → q i = true → (∀ j, j ≠ i → q j = p j) →
    (List.range n).countP q = (List.range n).countP p + 1 := by
  intro n
  induction n with
  | zero => intro hi; omega
  | succ n ih =>
    intro hi hp hq hsame
    rw [List.range_succ, List.countP_append, List.countP_append, List.countP_singleton,
      List.countP_singleton]
    by_cases hin : i < n
    · rw [ih hin hp hq hsame, hsame n (by omega)]
      omega
    · have hi' : i = n := by omega
      subst hi'
      have hc : (List.range i).countP q = (List.range i).countP p := by
        apply List.countP_congr
        intro j hj
        have := List.mem_range.mp hj
        rw [hsame j (by omega)]
      rw [hc, hp, hq]
      simp

theorem countP_range_same (p q : Nat → Bool) (n : Nat) (h : ∀ j, j < n → q j = p j) :
    (List.range n).countP q = (List.range n).countP p := by
  apply List.countP_congr
  intro j hj
  rw [h j (List.mem_range.mp hj)]

/-- Marking an unused slot used raises the number of used entries by one. -/
theorem usedCount_set_used (t : List FileEntry) (i : Nat) (e : FileEntry)
    (hi : i < MAX_FILES) (hil : i < t.length) (hun : (entryAt t i).is_used = 0)
    (he : e.is_used ≠ 0) : usedCount (t.set i e) = usedCount t + 1 := by
  unfold usedCount
  apply countP_range_flip _ _ i _ hi
  · simp [hun]
  · rw [entryAt_set_self _ _ _ hil]; simpa using he
  · intro j hj
    rw [entryAt_set_other _ _ _ _ hj]

/-- Marking a used slot unused lowers the number of used entries by one. -/
theorem usedCount_set_unused (t : List FileEntry) (i : Nat) (e : FileEntry)
    (hi : i < MAX_FILES) (hil : i < t.length) (hu : (entryAt t i).is_used ≠ 0)
    (he : e.is_used = 0) : usedCount t = usedCount (t.set i e) + 1 := by
  unfold usedCount
  apply countP_range_flip _ _ i _ hi
  · rw [entryAt_set_self _ _ _ hil]; simp [he]
  · simpa using hu
  · intro j hj
    rw [entryAt_set_other _ _ _ _ hj]

/-- A slot rewritten with the same used flag leaves the number of used entries
as it is. -/
theorem usedCount_set_same (t : List FileEntry) (i : Nat) (e : FileEntry)
    (he : e.is_used = (entryAt t i).is_used) : usedCount (t.set i e) = usedCount t := by
  unfold usedCount
  apply countP_range_same
  intro j _
  by_cases hj : j = i
  · subst hj
    by_cases hl : j < t.length
    · rw [entryAt_set_self _ _ _ hl, he]
    · have : t.set j e = t := by
        apply List.ext_getElem?
        intro k
        rw [List.getElem?_set]
        split_ifs with h1
        · subst h1; exact (List.getElem?_eq_none (not_lt.mp hl)).symm
        · rfl
      rw [this]
  · rw [entryAt_set_other _ _ _ _ hj]

theorem findUnused_some (t : List FileEntry) (i : Nat) (h : findUnused t = some i) :
    i < MAX_FILES ∧ (entryAt t i).is_used = 0 := by
  unfold findUnused at h
  have hp := List.find?_some h
  have hm := List.mem_of_find?_eq_some h
  exact ⟨List.mem_range.mp hm, by simpa using hp⟩

/-- The invariant holds in the state made by `init_star_file`. -/
theorem countOk_init (container : OpenFile) (verbose : Int) :
    CountOk (init_star_file container verbose) := by
  show (0 : Int) = (usedCount (List.replicate MAX_FILES zeroEntry) : Int)
  have : usedCount (List.replicate MAX_FILES zeroEntry) = 0 := by
    unfold usedCount
    rw [List.countP_eq_zero]
    intro i _
    rw [entryAt_replicate_zero]
    decide
  rw [this]
  rfl

/-- The invariant survives `add_file` whenever `read` does not fail, whether
`add_file` returns 0 or -1. -/
theorem countOk_add_file (star : StarFile) (filename : List Nat) (host : HostFile)
    (block : Block) (hlen : star.file_table.length = MAX_FILES)
    (hread : host.readFails = false) (hok : CountOk star) :
    CountOk (add_file star filename host block).2 := by
  unfold add_file
  cases hs : host.stat with
  | none => exact hok
  | some st_size =>
    cases hf : findUnused star.file_table with
    | none => exact hok
    | some i =>
      cases ho : host.openRead with
      | none => exact hok
      | some src =>
        obtain ⟨hi, hun⟩ := findUnused_some _ _ hf
        simp only [hread, Bool.false_and, Bool.false_eq_true, if_false]
        show star.header.num_files + 1 = ((usedCount (star.file_table.set i _) : Nat) : Int)
        rw [usedCount_set_used _ _ _ hi (by rw [hlen]; exact hi) hun
          (by show (1 : Int) ≠ 0; decide)]
        have : star.header.num_files = (usedCount star.file_table : Int) := hok
        rw [this]
        push_cast
        rfl

/-- The invariant survives `delete_file`, whether it returns 0 or -1. -/
theorem countOk_delete_file (fuel : Nat) (star : StarFile) (filename : List Nat) (block : Block)
    (r : Int × StarFile) (hok : CountOk star)
    (hr : delete_file fuel star filename block = some r) : CountOk r.2 := by
  unfold delete_file at hr
  cases hf : findFile star.file_table filename with
  | none =>
    rw [hf] at hr
    simp only [Option.some.injEq] at hr
    subst hr
    exact hok
  | some i =>
    rw [hf] at hr
    obtain ⟨hi, hu, _, hil⟩ := findFile_some _ _ _ hf
    have hcount := usedCount_set_unused star.file_table i
      { entryAt star.file_table i with is_used := 0 } hi hil hu rfl
    have hnum : star.header.num_files = (usedCount star.file_table : Int) := hok
    simp only [Option.map_eq_some'] at hr
    obtain ⟨hd, hfreed, hres⟩ := hr
    subst hres
    have hsame : hd.1.num_files = star.header.num_files := by
      split_ifs at hfreed with hc
      · simp only [Option.map_eq_some'] at hfreed
        obtain ⟨w, _, hw⟩ := hfreed
        subst hw
        rfl
      · simp only [Option.some.injEq] at hfreed
        subst hfreed
        rfl
    show hd.1.num_files - 1 = ((usedCount (star.file_table.set i _) : Nat) : Int)
    rw [hsame, hnum, hcount]
    push_cast
    ring

theorem append_loop_num_files : ∀ (k : Nat) (first : Bool) (last : Int) (header : StarHeader)
    (fd src : OpenFile) (block : Block),
    (append_loop k first last header fd src block).1.num_files = header.num_files := by
  intro k
  induction k with
  | zero => intro first last header fd src block; rfl
  | succ k ih =>
    intro first last header fd src block
    simp only [append_loop]
    rw [ih]
    split_ifs <;> rfl

/-- The invariant survives `extract_file`. -/
theorem countOk_extract_file (star : StarFile) (filename : List Nat) (dst_ok : Bool)
    (block : Block) (hok : CountOk star) :
    CountOk (extract_file star filename dst_ok block).2.1 := by
  unfold extract_file
  cases findFile star.file_table filename with
  | none => exact hok
  | some i =>
    cases dst_ok with
    | false => exact hok
    | true => exact hok

/-- The invariant survives `append_to_file`, whether it returns 0 or -1. -/
theorem countOk_append_to_file (fuel : Nat) (star : StarFile) (filename : List Nat)
    (host : HostFile) (block : Block) (r : Int × StarFile) (hok : CountOk star)
    (hr : append_to_file fuel star filename host block = some r) : CountOk r.2 := by
  have hnum : star.header.num_files = (usedCount star.file_table : Int) := hok
  unfold append_to_file at hr
  cases hf : findFile star.file_table filename with
  | none =>
    rw [hf] at hr
    simp only [Option.some.injEq] at hr
    subst hr; exact hok
  | some i =>
    rw [hf] at hr
    cases ho : host.openRead with
    | none =>
      rw [ho] at hr
      simp only [Option.some.injEq] at hr
      subst hr; exact hok
    | some src =>
      rw [ho] at hr
      cases hs : host.stat with
      | none =>
        rw [hs] at hr
        simp only [Option.some.injEq] at hr
        subst hr; exact hok
      | some st =>
        rw [hs] at hr
        simp only [Option.map_eq_some'] at hr
        obtain ⟨w, _, hres⟩ := hr
        subst hres
        have hdone : ∀ (k : Nat) (first : Bool) (last : Int) (fd src1 : OpenFile) (blk : Block)
            (e : FileEntry), e.is_used = (entryAt star.file_table i).is_used →
            CountOk { star with
              header := (append_loop k first last star.header fd src1 blk).1
              file_table := star.file_table.set i e
              fd := persist (append_loop k first last star.header fd src1 blk).2
                (append_loop k first last star.header fd src1 blk).1
                (star.file_table.set i e) } := by
          intro k first last fd src1 blk e he
          show (append_loop _ _ _ _ _ _ _).1.num_files
            = ((usedCount (star.file_table.set i _) : Nat) : Int)
          rw [append_loop_num_files, usedCount_set_same _ _ _ he]
          exact hnum
        split_ifs
        all_goals first
          | exact hdone _ _ _ _ _ _ _ rfl
          | exact hok

theorem pack_step_used (s : PackState) (i j : Nat) :
    (entryAt (pack_step s i).file_table j).is_used = (entryAt s.file_table j).is_used := by
  by_cases h : ((entryAt s.file_table i).is_used != 0) = true
  · simp only [pack_step, h, if_true]
    by_cases hj : j = i
    · subst hj
      by_cases hl : j < s.file_table.length
      · rw [entryAt_set_self _ _ _ hl]
      · have : s.file_table.set j
            { entryAt s.file_table j with first_block := s.next_block } = s.file_table := by
          apply List.ext_getElem?
          intro k
          rw [List.getElem?_set]
          split_ifs with h1
          · subst h1; exact (List.getElem?_eq_none (not_lt.mp hl)).symm
          · rfl
        rw [this]
    · rw [entryAt_set_other _ _ _ _ hj]
  · simp only [pack_step, h, Bool.false_eq_true, if_false]

theorem pack_fold_used : ∀ (l : List Nat) (s : PackState) (j : Nat),
    (entryAt (l.foldl pack_step s).file_table j).is_used = (entryAt s.file_table j).is_used := by
  intro l
  induction l with
  | nil => intro s j; rfl
  | cons i l ih =>
    intro s j
    rw [List.foldl_cons, ih, pack_step_used]

theorem usedCount_pack_fold (l : List Nat) (s : PackState) :
    usedCount (l.foldl pack_step s).file_table = usedCount s.file_table := by
  unfold usedCount
  apply countP_range_same
  intro j _
  rw [pack_fold_used]

/-- The invariant survives `pack_file`, whether it returns 0 or -1. -/
theorem countOk_pack_file (star : StarFile) (temp_ok : Bool) (block : Block)
    (hok : CountOk star) : CountOk (pack_file star temp_ok block).2 := by
  have hnum : star.header.num_files = (usedCount star.file_table : Int) := hok
  cases temp_ok with
  | false => exact hok
  | true =>
    unfold CountOk
    simp only [pack_file, Bool.not_true, Bool.false_eq_true, if_false]
    rw [usedCount_pack_fold]
    exact hnum

theorem delete_file_table_length (fuel : Nat) (star : StarFile) (filename : List Nat)
    (block : Block) (r : Int × StarFile)
    (hr : delete_file fuel star filename block = some r) :
    r.2.file_table.length = star.file_table.length := by
  unfold delete_file at hr
  cases hf : findFile star.file_table filename with
  | none =>
    rw [hf] at hr
    simp only [Option.some.injEq] at hr
    subst hr; rfl
  | some i =>
    rw [hf] at hr
    simp only [Option.map_eq_some'] at hr
    obtain ⟨hd, _, hres⟩ := hr
    subst hres
    exact List.length_set _ _ _

/-- The invariant survives `update_file` whenever `read` does not fail, whether
`update_file` returns 0 or -1. -/
theorem countOk_update_file (fuel : Nat) (star : StarFile) (filename : List Nat)
    (host : HostFile) (ob nb db ab : Block) (r : Int × StarFile)
    (hlen : star.file_table.length = MAX_FILES) (hread : host.readFails = false)
    (hok : CountOk star)
    (hr : update_file fuel star filename host ob nb db ab = some r) : CountOk r.2 := by
  have hreplace : ∀ (fd : OpenFile),
      (delete_file fuel { star with fd := fd } filename db).map
        (fun d => add_file d.2 filename host ab) = some r → CountOk r.2 := by
    intro fd h
    simp only [Option.map_eq_some'] at h
    obtain ⟨d, hd, hres⟩ := h
    subst hres
    have hokd := countOk_delete_file fuel { star with fd := fd } filename db d hok hd
    have hlend := delete_file_table_length fuel { star with fd := fd } filename db d hd
    exact countOk_add_file d.2 filename host ab (hlend.trans hlen) hread hokd
  unfold update_file at hr
  cases hs : host.stat with
  | none =>
    rw [hs] at hr
    simp only [Option.some.injEq] at hr
    subst hr; exact hok
  | some st =>
    rw [hs] at hr
    cases hf : findFile star.file_table filename with
    | none =>
      rw [hf] at hr
      simp only [Option.some.injEq] at hr
      subst hr
      exact countOk_add_file star filename host ab hlen hread hok
    | some i =>
      rw [hf] at hr
      simp only at hr
      split_ifs at hr with hsz
      · cases ho : host.openRead with
        | none =>
          rw [ho] at hr
          simp only [Option.some.injEq] at hr
          subst hr; exact hok
        | some src =>
          rw [ho] at hr
          simp only at hr
          cases hc : compare_loop fuel (entryAt star.file_table i).first_block star.fd src
              ob nb with
          | none => rw [hc] at hr; simp at hr
          | some c =>
            rw [hc] at hr
            simp only at hr
            split_ifs at hr with hneed
            · exact hreplace c.2 hr
            · simp only [Option.some.injEq] at hr
              subst hr; exact hok
      · exact hreplace star.fd hr

/-- C22. The invariant holds in the new archive made by `init_star_file`.
`add_file` of a path "d" that is a directory of size 4096, on which `stat` and
`open` succeed and `read` fails, returns -1 after it has marked slot 0 used
and before it counts the file: the file count is still 0 and one entry is
used. -/
theorem add_file_read_failure_breaks_count :
    CountOk (init_star_file OpenFile.empty 0) ∧
    (add_file (init_star_file OpenFile.empty 0) [100] (.directory 4096) zeroBlock).1 = -1 ∧
    (add_file (init_star_file OpenFile.empty 0) [100] (.directory 4096)
      zeroBlock).2.header.num_files = 0 ∧
    (entryAt (add_file (init_star_file OpenFile.empty 0) [100] (.directory 4096)
      zeroBlock).2.file_table 0).is_used = 1 ∧
    usedCount (add_file (init_star_file OpenFile.empty 0) [100] (.directory 4096)
      zeroBlock).2.file_table = 1 ∧
    ¬ CountOk (add_file (init_star_file OpenFile.empty 0) [100] (.directory 4096) zeroBlock).2 := by
  decide!

end StarArchive
